import Mathlib

/-
Verification of the file version management system core against its design
document.  The Python sources (common/utils.py, core/models.py,
core/diff_engine.py, core/project.py) are shallowly embedded below:
filesystem paths become lists of path segments, the filesystem becomes a
finite map from paths to file nodes, and every operation of the engine
becomes a pure Lean function over that state.
-/

/-- Filesystem paths are modelled as lists of path segments; os.path.join
appends segments, os.path.basename takes the last segment, and
os.path.relpath under a base directory drops the base prefix.  Relative
paths such as the keys of file_hashes use the same representation. -/
abbrev FPath := List String

/-- A filesystem node: either a readable regular file with its content and
modification time, or a file whose operations raise I/O errors (permission
problems or similar).  The probe layer of the code converts any such raise
into a sentinel value, which is what the unreadable node models. -/
inductive FNode where
  | file (content : String) (mtime : Nat)
  | unreadable
  deriving DecidableEq, Repr

/-- The filesystem: a finite map from absolute paths to nodes, kept as an
association list whose keys stay unique when it is only updated through
FS.write. -/
abbrev FS := List (FPath × FNode)

namespace FS

/-- Lookup of the node stored at path p, first match. -/
def lookup (fs : FS) (p : FPath) : Option FNode :=
  match fs with
  | [] => none
  | (q, n) :: rest => if q = p then some n else lookup rest p

/-- Embeds os.path.exists: true when p is a stored file or a directory that
contains a stored file (directories exist only implicitly). -/
def pathExists (fs : FS) (p : FPath) : Bool :=
  fs.any (fun e => p.isPrefixOf e.1)

/-- Write a node at path p, replacing any existing entry in place. -/
def write (fs : FS) (p : FPath) (n : FNode) : FS :=
  match fs with
  | [] => [(p, n)]
  | (q, m) :: rest => if q = p then (p, n) :: rest else (q, m) :: write rest p n

/-- Embeds os.remove: delete the entry stored exactly at p. -/
def removeFile (fs : FS) (p : FPath) : FS :=
  fs.filter (fun e => !(e.1 == p))

/-- Embeds the os.walk enumeration used by the code: all stored files
strictly below directory dir, as paths relative to dir, in store order. -/
def walk (fs : FS) (dir : FPath) : List FPath :=
  fs.filterMap (fun e =>
    if dir.isPrefixOf e.1 && !(e.1 == dir) then some (e.1.drop dir.length) else none)

end FS

/-- MD5 digests are modelled by an injective tagging function: the code uses
digests only for equality comparison and the spec relies on distinct
contents having distinct digests.  The tag keeps every digest nonempty,
as a real hex digest is. -/
def md5Hex (s : String) : String := "md5:" ++ s

/-- Timestamps (Python datetime values) are modelled as natural numbers;
datetime.min is 0. -/
abbrev PDateTime := Nat

/-- Embeds datetime.min, the sentinel for a failed mtime probe. -/
def datetimeMin : PDateTime := 0

namespace FileUtils

/-- Embeds FileUtils.get_file_hash: empty string when the path does not
exist, empty string when opening or reading raises, otherwise the MD5
digest of the content.  A path that exists only as a directory also
yields the empty string because open raises IsADirectoryError there. -/
def get_file_hash (fs : FS) (p : FPath) : String :=
  if FS.pathExists fs p then
    match FS.lookup fs p with
    | some (.file c _) => md5Hex c
    | _ => ""
  else ""

/-- Embeds FileUtils.get_file_mtime: the stored mtime, or datetime.min when
os.path.getmtime raises (missing file, or a node whose operations fail). -/
def get_file_mtime (fs : FS) (p : FPath) : PDateTime :=
  match FS.lookup fs p with
  | some (.file _ t) => t
  | _ => datetimeMin

/-- Embeds FileUtils.get_file_size: byte size of the content, or 0 when
os.path.getsize raises. -/
def get_file_size (fs : FS) (p : FPath) : Nat :=
  match FS.lookup fs p with
  | some (.file c _) => c.utf8ByteSize
  | _ => 0

/-- Embeds FileUtils.read_file_content: the text content, or the empty
string when opening or reading raises. -/
def read_file_content (fs : FS) (p : FPath) : String :=
  match FS.lookup fs p with
  | some (.file c _) => c
  | _ => ""

/-- The text extension allow-list of FileUtils.is_text_file. -/
def textExtensions : List String :=
  [".txt", ".py", ".js", ".html", ".css", ".json", ".xml", ".md",
   ".yml", ".yaml", ".ini", ".cfg", ".conf", ".log", ".sql",
   ".c", ".cpp", ".h", ".java", ".cs", ".php", ".rb", ".go",
   ".rs", ".kt", ".swift", ".scala", ".sh", ".bat", ".ps1"]

/-- Embeds pathlib's Path(name).suffix on a file name: the substring from
the last dot, provided that dot is neither the first nor the last
character of the name. -/
def suffixOf (name : String) : String :=
  let cs := name.toList
  match cs.reverse.findIdx? (fun c => c == '.') with
  | none => ""
  | some r =>
      if 1 ≤ r ∧ r < cs.length - 1 then String.mk (cs.drop (cs.length - 1 - r)) else ""

/-- ASCII lowering of one character; the extension allow-list is pure
ASCII, so this matches Python str.lower on every relevant input. -/
def lowerChar (c : Char) : Char :=
  if 65 ≤ c.toNat ∧ c.toNat ≤ 90 then Char.ofNat (c.toNat + 32) else c

/-- ASCII lowering of a string. -/
def lowerStr (s : String) : String := String.mk (s.toList.map lowerChar)

/-- Embeds FileUtils.is_text_file: extension allow-list test on the final
path segment. -/
def is_text_file (p : FPath) : Bool :=
  textExtensions.contains (lowerStr (suffixOf (p.getLastD "")))

end FileUtils

namespace StringUtils

/-- Character-level form of the two sequential replaces of
StringUtils.normalize_line_endings: a CR directly followed by LF is
consumed into one LF, any remaining CR becomes LF. -/
def normChars : List Char → List Char
  | [] => []
  | '\r' :: '\n' :: rest => '\n' :: normChars rest
  | '\r' :: rest => '\n' :: normChars rest
  | c :: rest => c :: normChars rest

/-- Embeds StringUtils.normalize_line_endings, which replaces CRLF by LF and
then CR by LF. -/
def normalize_line_endings (text : String) : String :=
  String.mk (normChars text.toList)

end StringUtils

namespace ValidationUtils

/-- Embeds Python str.strip with no arguments: drop leading and trailing
whitespace characters. -/
def pyStrip (s : String) : String :=
  String.mk (((s.toList.dropWhile Char.isWhitespace).reverse.dropWhile
    Char.isWhitespace).reverse)

/-- The reserved filesystem characters rejected in project names. -/
def invalidChars : List Char := ['<', '>', ':', '"', '/', '\\', '|', '?', '*']

/-- Embeds ValidationUtils.is_valid_project_name.  The length and character
checks run on the stripped name, as in the source. -/
def is_valid_project_name (name : String) : Bool × String :=
  if pyStrip name = "" then (false, "프로젝트 이름을 입력해주세요.")
  else
    let stripped := pyStrip name
    if stripped.length > 50 then (false, "프로젝트 이름은 50자 이하로 입력해주세요.")
    else
      match invalidChars.find? (fun c => stripped.toList.contains c) with
      | some c =>
          (false, "프로젝트 이름에 " ++ c.toString ++ " 문자는 사용할 수 없습니다.")
      | none => (true, "")

/-- Embeds ValidationUtils.is_valid_version_description: the length check
runs on the stripped description, as in the source. -/
def is_valid_version_description (description : String) : Bool × String :=
  if pyStrip description = "" then (false, "버전 설명을 입력해주세요.")
  else
    if (pyStrip description).length > 200 then (false, "버전 설명은 200자 이하로 입력해주세요.")
    else (true, "")

end ValidationUtils

/-- C8: for every path, the File Probe primitives never propagate an I/O
failure: on a missing or unreadable file, hash computation returns the
empty string, size returns 0, modification time returns the minimum
timestamp, and text read returns the empty string, instead of raising. -/
theorem C8_file_probe_sentinels (fs : FS) (p : FPath)
    (h : FS.lookup fs p = none ∨ FS.lookup fs p = some .unreadable) :
    FileUtils.get_file_hash fs p = "" ∧
    FileUtils.get_file_size fs p = 0 ∧
    FileUtils.get_file_mtime fs p = datetimeMin ∧
    FileUtils.read_file_content fs p = "" := by
  refine ⟨?_, ?_, ?_, ?_⟩ <;>
    rcases h with h | h <;>
      simp [FileUtils.get_file_hash, FileUtils.get_file_size,
            FileUtils.get_file_mtime, FileUtils.read_file_content, h]

/-- Witness for C8 at a concrete input: the empty filesystem and the path
x.txt, whose lookup is none. -/
theorem C8_file_probe_sentinels_witness :
    FileUtils.get_file_hash [] ["x.txt"] = "" ∧
    FileUtils.get_file_size [] ["x.txt"] = 0 ∧
    FileUtils.get_file_mtime [] ["x.txt"] = datetimeMin ∧
    FileUtils.read_file_content [] ["x.txt"] = "" :=
  C8_file_probe_sentinels [] ["x.txt"] (Or.inl rfl)

/-- Values of the persisted JSON document.  A Python datetime is serialized
by datetime.isoformat and parsed back by datetime.fromisoformat, which is
its exact inverse; the embedding therefore models the ISO-8601 timestamp
string by the timestamp it denotes, as the constructor time. -/
inductive J where
  | str (s : String)
  | num (n : Int)
  | time (t : PDateTime)
  | list (xs : List J)
  | obj (kvs : List (String × J))

/-- Python dict truthiness, used by the settings check of
ProjectData.from_dict (an empty dict, string, list and the number 0 are
falsy). -/
def J.truthy : J → Bool
  | .str s => !(s == "")
  | .num n => !(n == 0)
  | .time _ => true
  | .list xs => !xs.isEmpty
  | .obj kvs => !kvs.isEmpty

/-- Key lookup in a JSON object / Python dict (keys are unique in a dict,
so the first match is the match). -/
def getEntry (d : List (String × J)) (k : String) : Option J :=
  (d.find? (fun e => e.1 == k)).map (fun e => e.2)

/-- Encoding of a Python list of strings. -/
def encodeStrList (xs : List String) : J := .list (xs.map .str)

/-- Decoding of a list of strings.  Python stores the raw JSON value in the
field without validation; the typed model maps a well-formed payload back
to the field type and ill-typed entries to the empty default. -/
def decodeStrList : J → List String
  | .list xs => xs.filterMap (fun j => match j with | .str s => some s | _ => none)
  | _ => []

/-- Encoding of a Python str-to-str dict. -/
def encodeStrMap (m : List (String × String)) : J :=
  .obj (m.map (fun kv => (kv.1, .str kv.2)))

/-- Decoding of a str-to-str dict, with the same raw-storage note as
decodeStrList. -/
def decodeStrMap : J → List (String × String)
  | .obj kvs => kvs.filterMap (fun kv => match kv.2 with | .str s => some (kv.1, s) | _ => none)
  | _ => []

/-- Encoding of the auto_log field, a list of str-to-str dicts. -/
def encodeAutoLog (l : List (List (String × String))) : J :=
  .list (l.map (fun e => .obj (e.map (fun kv => (kv.1, .str kv.2)))))

/-- Decoding of the auto_log field, with the same raw-storage note as
decodeStrList. -/
def decodeAutoLog : J → List (List (String × String))
  | .list xs => xs.filterMap (fun j => match j with
      | .obj kvs => some (kvs.filterMap (fun kv => match kv.2 with | .str s => some (kv.1, s) | _ => none))
      | _ => none)
  | _ => []

/-- Embeds the FileChangeType enum of core/models.py. -/
inductive FileChangeType where
  | unchanged
  | modified
  | added
  | deleted
  deriving DecidableEq, Repr

/-- Embeds the FileStatus dataclass (display-only properties omitted). -/
structure FileStatus where
  path : String
  name : String
  change_type : FileChangeType
  last_modified : PDateTime
  current_hash : String := ""
  previous_hash : String := ""
  file_size : Nat := 0
  is_text_file : Bool := true
  deriving DecidableEq, Repr

/-- Joins path segments back into a Python-style relative path string, as
os.walk plus os.path.relpath produce. -/
def joinPath (p : FPath) : String := String.intercalate "/" p

/-- Segment accumulator for splitPath. -/
def splitPathChars : List Char → String → FPath
  | [], acc => [acc]
  | '/' :: rest, acc => acc :: splitPathChars rest ""
  | c :: rest, acc => splitPathChars rest (acc.push c)

/-- Splits a Python-style relative path string into segments at every
slash, as os.path.join with the project directories consumes it. -/
def splitPath (s : String) : FPath := splitPathChars s.toList ""

/-- Embeds FileStatus.create_from_file.  The method is always called with an
absolute file path under the base directory, so os.path.relpath is the
drop of the base prefix. -/
def FileStatus.create_from_file (fs : FS) (file_path base : FPath)
    (previous_hash : String) : FileStatus :=
  let rel_path := joinPath (file_path.drop base.length)
  let name := file_path.getLastD ""
  if FS.pathExists fs file_path then
    let current_hash := FileUtils.get_file_hash fs file_path
    let change_type :=
      if previous_hash = "" ∧ current_hash ≠ "" then FileChangeType.added
      else if current_hash ≠ previous_hash then FileChangeType.modified
      else FileChangeType.unchanged
    { path := rel_path, name := name, change_type := change_type,
      last_modified := FileUtils.get_file_mtime fs file_path,
      current_hash := current_hash, previous_hash := previous_hash,
      file_size := FileUtils.get_file_size fs file_path,
      is_text_file := FileUtils.is_text_file file_path }
  else
    { path := rel_path, name := name, change_type := FileChangeType.deleted,
      last_modified := datetimeMin, current_hash := "",
      previous_hash := previous_hash, file_size := 0, is_text_file := true }

/-- Embeds the Version dataclass. -/
structure Version where
  number : Nat
  description : String
  created_at : PDateTime
  files : List String
  change_notes : String := ""
  auto_log : List (List (String × String)) := []
  deriving DecidableEq, Repr

/-- Embeds Version.to_dict. -/
def Version.to_dict (v : Version) : List (String × J) :=
  [("number", .num v.number),
   ("description", .str v.description),
   ("created_at", .time v.created_at),
   ("files", encodeStrList v.files),
   ("change_notes", .str v.change_notes),
   ("auto_log", encodeAutoLog v.auto_log)]

/-- Embeds Version.from_dict: the four positional fields are required
(a missing key raises, modelled as none), change_notes and auto_log
default to empty for documents written before those fields existed. -/
def Version.from_dict (d : List (String × J)) : Option Version :=
  match getEntry d "number", getEntry d "description",
        getEntry d "created_at", getEntry d "files" with
  | some (.num n), some (.str desc), some (.time t), some files =>
      some { number := n.toNat, description := desc, created_at := t,
             files := decodeStrList files,
             change_notes := match getEntry d "change_notes" with
               | some (.str s) => s
               | _ => "",
             auto_log := (getEntry d "auto_log").elim [] decodeAutoLog }
  | _, _, _, _ => none

/-- Embeds the ProjectSettings dataclass. -/
structure ProjectSettings where
  name : String
  description : String := ""
  created_at : PDateTime
  author : String := ""
  tags : List String := []
  deriving DecidableEq, Repr

/-- Embeds ProjectSettings.to_dict. -/
def ProjectSettings.to_dict (s : ProjectSettings) : List (String × J) :=
  [("name", .str s.name),
   ("description", .str s.description),
   ("created_at", .time s.created_at),
   ("author", .str s.author),
   ("tags", encodeStrList s.tags)]

/-- Embeds ProjectSettings.from_dict; a document without created_at gets
datetime.now(), passed in as the now parameter. -/
def ProjectSettings.from_dict (now : PDateTime) (d : List (String × J)) :
    Option ProjectSettings :=
  match getEntry d "name" with
  | some (.str n) =>
      match getEntry d "created_at" with
      | some (.time t) =>
          some { name := n,
                 description := (match getEntry d "description" with
                   | some (.str s) => s | _ => ""),
                 created_at := t,
                 author := (match getEntry d "author" with
                   | some (.str s) => s | _ => ""),
                 tags := (getEntry d "tags").elim [] decodeStrList }
      | none =>
          some { name := n,
                 description := (match getEntry d "description" with
                   | some (.str s) => s | _ => ""),
                 created_at := now,
                 author := (match getEntry d "author" with
                   | some (.str s) => s | _ => ""),
                 tags := (getEntry d "tags").elim [] decodeStrList }
      | some _ => none
  | _ => none

/-- Embeds the FileDiff dataclass; diff_lines holds (change type, line)
pairs. -/
structure FileDiff where
  file_path : String
  old_version : Int
  new_version : Int
  old_content : String := ""
  new_content : String := ""
  is_text_file : Bool := true
  diff_lines : List (String × String) := []
  deriving DecidableEq, Repr

/-- Embeds the FileDiff.has_changes property. -/
def FileDiff.has_changes (d : FileDiff) : Bool :=
  !(d.old_content == d.new_content)

/-- Embeds the ProjectData aggregate. -/
structure ProjectData where
  settings : Option ProjectSettings := none
  current_version : Nat := 0
  tracked_files : List String := []
  versions : List Version := []
  file_hashes : List (String × String) := []
  deriving DecidableEq, Repr

/-- Embeds ProjectData.to_dict. -/
def ProjectData.to_dict (pd : ProjectData) : List (String × J) :=
  [("settings", match pd.settings with
      | some s => .obj s.to_dict
      | none => .obj []),
   ("current_version", .num pd.current_version),
   ("tracked_files", encodeStrList pd.tracked_files),
   ("versions", .list (pd.versions.map (fun v => .obj v.to_dict))),
   ("file_hashes", encodeStrMap pd.file_hashes)]

/-- Decoding of one entry of the versions list: each entry must parse, as a
raising Version.from_dict aborts the whole load. -/
def decodeVersionList : List J → Option (List Version)
  | [] => some []
  | j :: rest =>
      match (match j with | .obj kvs => Version.from_dict kvs | _ => none),
            decodeVersionList rest with
      | some v, some vs => some (v :: vs)
      | _, _ => none

/-- Decoding of the versions list of the persisted document. -/
def decodeVersions : J → Option (List Version)
  | .list xs => decodeVersionList xs
  | _ => none

/-- The settings step of ProjectData.from_dict: settings load only when the
settings entry is present and truthy. -/
def settingsStep (now : PDateTime) (d : List (String × J)) :
    Option (Option ProjectSettings) :=
  match getEntry d "settings" with
  | some j =>
      if j.truthy then
        match j with
        | .obj kvs => (ProjectSettings.from_dict now kvs).map some
        | _ => none
      else some none
  | none => some none

/-- The versions step of ProjectData.from_dict: a missing versions entry
defaults to the empty list. -/
def versionsStep (d : List (String × J)) : Option (List Version) :=
  match getEntry d "versions" with
  | some j => decodeVersions j
  | none => some []

/-- Embeds ProjectData.from_dict: the settings and version loads can raise
(modelled as none), every other field defaults when missing. -/
def ProjectData.from_dict (now : PDateTime) (d : List (String × J)) :
    Option ProjectData :=
  match settingsStep now d, versionsStep d with
  | some st, some vs =>
      some { settings := st,
             current_version := (match getEntry d "current_version" with
               | some (.num n) => n.toNat | _ => 0),
             tracked_files := (getEntry d "tracked_files").elim [] decodeStrList,
             versions := vs,
             file_hashes := (getEntry d "file_hashes").elim [] decodeStrMap }
  | _, _ => none

/-- Embeds ProjectData.get_version_by_number (first match wins, as the
Python loop returns the first hit). -/
def ProjectData.get_version_by_number (pd : ProjectData) (n : Nat) : Option Version :=
  pd.versions.find? (fun v => v.number == n)

/-- Embeds ProjectData.get_latest_version: Python max with a key function
keeps the first of several maxima. -/
def ProjectData.get_latest_version (pd : ProjectData) : Option Version :=
  match pd.versions with
  | [] => none
  | v :: rest => some (rest.foldl (fun b w => if b.number < w.number then w else b) v)

/-- Python dict write: replace the value at the key, else append. -/
def dictInsert (m : List (String × String)) (k v : String) : List (String × String) :=
  match m with
  | [] => [(k, v)]
  | (k1, v1) :: rest => if k1 = k then (k, v) :: rest else (k1, v1) :: dictInsert rest k v

/-- Python dict del: the key is gone afterwards. -/
def dictErase (m : List (String × String)) (k : String) : List (String × String) :=
  m.filter (fun kv => !(kv.1 == k))

/-- Python dict get with a default. -/
def dictGet (m : List (String × String)) (k dflt : String) : String :=
  match m.find? (fun kv => kv.1 == k) with
  | some kv => kv.2
  | none => dflt

/-- Python dict membership. -/
def dictContains (m : List (String × String)) (k : String) : Bool :=
  m.any (fun kv => kv.1 == k)

/-- Embeds ProjectData.get_file_hash. -/
def ProjectData.lookupHash (pd : ProjectData) (file_path : String) : String :=
  dictGet pd.file_hashes file_path ""

theorem decodeStrList_encode (xs : List String) :
    decodeStrList (encodeStrList xs) = xs := by
  induction xs with
  | nil => rfl
  | cons x xs ih =>
      simp only [encodeStrList, decodeStrList, List.map_cons, List.filterMap_cons] at *
      simpa using ih

theorem decodeStrMap_encode (m : List (String × String)) :
    decodeStrMap (encodeStrMap m) = m := by
  induction m with
  | nil => rfl
  | cons kv m ih =>
      simp only [encodeStrMap, decodeStrMap, List.map_cons, List.filterMap_cons] at *
      simpa using ih

theorem decodeAutoLog_encode (l : List (List (String × String))) :
    decodeAutoLog (encodeAutoLog l) = l := by
  induction l with
  | nil => rfl
  | cons e l ih =>
      simp only [encodeAutoLog, decodeAutoLog, List.map_cons, List.filterMap_cons] at *
      have he : (e.map (fun kv => (kv.1, J.str kv.2))).filterMap
          (fun kv => match kv.2 with | .str s => some (kv.1, s) | _ => none) = e := by
        induction e with
        | nil => rfl
        | cons kv e ihe => simp only [List.map_cons, List.filterMap_cons] at *; simpa using ihe
      simpa [he] using ih

theorem version_round (v : Version) :
    Version.from_dict (Version.to_dict v) = some v := by
  have h : Version.from_dict (Version.to_dict v) =
      some { number := (Int.ofNat v.number).toNat, description := v.description,
             created_at := v.created_at,
             files := decodeStrList (encodeStrList v.files),
             change_notes := v.change_notes,
             auto_log := decodeAutoLog (encodeAutoLog v.auto_log) } := rfl
  rw [h, decodeStrList_encode, decodeAutoLog_encode]
  simp

theorem settings_round (now : PDateTime) (s : ProjectSettings) :
    ProjectSettings.from_dict now (ProjectSettings.to_dict s) = some s := by
  have h : ProjectSettings.from_dict now (ProjectSettings.to_dict s) =
      some { name := s.name, description := s.description, created_at := s.created_at,
             author := s.author, tags := decodeStrList (encodeStrList s.tags) } := rfl
  rw [h, decodeStrList_encode]

theorem versions_round (vs : List Version) :
    decodeVersionList (vs.map (fun v => J.obj v.to_dict)) = some vs := by
  induction vs with
  | nil => rfl
  | cons v vs ih =>
      simp only [List.map_cons, decodeVersionList]
      rw [version_round v, ih]

theorem settingsStep_round (now : PDateTime) (pd : ProjectData) :
    settingsStep now (ProjectData.to_dict pd) = some pd.settings := by
  cases h : pd.settings with
  | none =>
      show settingsStep now (ProjectData.to_dict pd) = some none
      simp [settingsStep, ProjectData.to_dict, getEntry, h, J.truthy]
  | some s =>
      show settingsStep now (ProjectData.to_dict pd) = some (some s)
      simp [settingsStep, ProjectData.to_dict, getEntry, h, J.truthy,
            ProjectSettings.to_dict]
      exact settings_round now s

theorem versionsStep_round (pd : ProjectData) :
    versionsStep (ProjectData.to_dict pd) = some pd.versions := by
  show decodeVersionList (pd.versions.map (fun v => J.obj v.to_dict)) = some pd.versions
  exact versions_round pd.versions

theorem pd_round (now : PDateTime) (pd : ProjectData) :
    ProjectData.from_dict now (ProjectData.to_dict pd) = some pd := by
  unfold ProjectData.from_dict
  rw [settingsStep_round, versionsStep_round]
  show some _ = some pd
  cases pd with
  | mk st cv tf vs fh =>
      simp only []
      congr 1
      have h1 : getEntry (ProjectData.to_dict ⟨st, cv, tf, vs, fh⟩) "current_version" =
          some (.num (Int.ofNat cv)) := rfl
      have h2 : getEntry (ProjectData.to_dict ⟨st, cv, tf, vs, fh⟩) "tracked_files" =
          some (encodeStrList tf) := rfl
      have h3 : getEntry (ProjectData.to_dict ⟨st, cv, tf, vs, fh⟩) "file_hashes" =
          some (encodeStrMap fh) := rfl
      rw [h1, h2, h3]
      simp [decodeStrList_encode, decodeStrMap_encode]

/-- C2: serializing any ProjectData value to the persisted document and
deserializing that document yields a ProjectData with equal
current_version, equal tracked_files and, for each version, equal number,
description, files and notes (timestamps are preserved exactly, hence to
second precision); documents missing optional fields deserialize with
empty defaults. -/
theorem C2_persist_roundtrip :
    (∀ now pd, ProjectData.from_dict now (ProjectData.to_dict pd) = some pd) ∧
    (∀ now, ProjectData.from_dict now [] =
        some { settings := none, current_version := 0, tracked_files := [],
               versions := [], file_hashes := [] }) ∧
    (∀ n desc t fls, Version.from_dict
        [("number", .num n), ("description", .str desc),
         ("created_at", .time t), ("files", encodeStrList fls)] =
        some { number := n.toNat, description := desc, created_at := t,
               files := fls, change_notes := "", auto_log := [] }) := by
  refine ⟨pd_round, fun now => rfl, fun n desc t fls => ?_⟩
  have h : Version.from_dict
      [("number", .num n), ("description", .str desc),
       ("created_at", .time t), ("files", encodeStrList fls)] =
      some { number := n.toNat, description := desc, created_at := t,
             files := decodeStrList (encodeStrList fls), change_notes := "",
             auto_log := [] } := rfl
  rw [h, decodeStrList_encode]

theorem FS.pathExists_of_lookup {fs : FS} {p : FPath} {n : FNode}
    (h : FS.lookup fs p = some n) : FS.pathExists fs p = true := by
  induction fs with
  | nil => simp [FS.lookup] at h
  | cons e rest ih =>
      obtain ⟨q, m⟩ := e
      rw [FS.pathExists, List.any_cons]
      by_cases he : q = p
      · subst he
        have hpre : q.isPrefixOf q = true := List.isPrefixOf_iff_prefix.mpr (List.prefix_refl q)
        show (q.isPrefixOf q || _) = true
        rw [hpre, Bool.true_or]
      · rw [FS.lookup, if_neg he] at h
        have hrest := ih h
        rw [FS.pathExists] at hrest
        show (p.isPrefixOf q || _) = true
        rw [hrest, Bool.or_true]

theorem md5Hex_ne_empty (c : String) : md5Hex c ≠ "" := by
  intro h
  have h2 := congrArg String.length h
  simp [md5Hex, String.length_append] at h2
  exact absurd h2.1 (by decide)

/-- C4: for every tracked path with recorded baseline hash B, in a live
working state where the path is either a readable file or absent, the
FileStatus built for it is: unchanged when the live hash equals B, deleted
when the live file is absent and B is present, added when the live file is
present and B is empty, and modified when both hashes exist and differ. -/
theorem C4_status_classification (fs : FS) (p base : FPath) (B : String) :
    (∀ c t, FS.lookup fs p = some (.file c t) → md5Hex c = B →
        (FileStatus.create_from_file fs p base B).change_type = .unchanged) ∧
    (FS.pathExists fs p = false → B ≠ "" →
        (FileStatus.create_from_file fs p base B).change_type = .deleted) ∧
    (∀ c t, FS.lookup fs p = some (.file c t) → B = "" →
        (FileStatus.create_from_file fs p base B).change_type = .added) ∧
    (∀ c t, FS.lookup fs p = some (.file c t) → B ≠ "" → md5Hex c ≠ B →
        (FileStatus.create_from_file fs p base B).change_type = .modified) := by
  refine ⟨?_, ?_, ?_, ?_⟩
  · intro c t hl hh
    have hex := FS.pathExists_of_lookup hl
    have hB : B ≠ "" := hh ▸ md5Hex_ne_empty c
    simp [FileStatus.create_from_file, hex, FileUtils.get_file_hash, hl, hh, hB]
  · intro hex hB
    simp [FileStatus.create_from_file, hex]
  · intro c t hl hB
    have hex := FS.pathExists_of_lookup hl
    simp [FileStatus.create_from_file, hex, FileUtils.get_file_hash, hl, hB,
          md5Hex_ne_empty c]
  · intro c t hl hB hne
    have hex := FS.pathExists_of_lookup hl
    simp [FileStatus.create_from_file, hex, FileUtils.get_file_hash, hl, hB, hne]

/-- Witness for C4 at concrete inputs: a filesystem holding b/f.txt with
content hello, exercised once per classification case. -/
theorem C4_status_classification_witness :
    (FileStatus.create_from_file [(["b", "f.txt"], .file "hello" 5)]
      ["b", "f.txt"] ["b"] "md5:hello").change_type = .unchanged ∧
    (FileStatus.create_from_file [(["b", "f.txt"], .file "hello" 5)]
      ["b", "g.txt"] ["b"] "md5:x").change_type = .deleted ∧
    (FileStatus.create_from_file [(["b", "f.txt"], .file "hello" 5)]
      ["b", "f.txt"] ["b"] "").change_type = .added ∧
    (FileStatus.create_from_file [(["b", "f.txt"], .file "hello" 5)]
      ["b", "f.txt"] ["b"] "md5:old").change_type = .modified :=
  ⟨(C4_status_classification _ _ _ _).1 "hello" 5 rfl rfl,
   (C4_status_classification _ _ _ _).2.1 (by decide) (by decide),
   (C4_status_classification _ _ _ _).2.2.1 "hello" 5 rfl rfl,
   (C4_status_classification _ _ _ _).2.2.2 "hello" 5 rfl (by decide) (by decide)⟩

/-- One line of an edit script: a line kept by both sides, deleted from the
old side, or inserted by the new side. -/
inductive DiffOp where
  | keep (s : String)
  | del (s : String)
  | ins (s : String)
  deriving DecidableEq, Repr

/-- Number of non-kept lines of an edit script. -/
def editCost (ops : List DiffOp) : Nat :=
  ops.foldl (fun n op => match op with | .keep _ => n | _ => n + 1) 0

/-- Minimal edit script between two line lists.  difflib's SequenceMatcher
is one minimal-edit-script matcher; the design document states that any
algorithm producing an equivalent minimal edit script is acceptable, and
the embedding uses the standard longest-common-subsequence recursion. -/
def diffOps : List String → List String → List DiffOp
  | [], [] => []
  | [], b :: bs => .ins b :: diffOps [] bs
  | a :: as, [] => .del a :: diffOps as []
  | a :: as, b :: bs =>
      if a = b then .keep a :: diffOps as bs
      else
        let d1 := .del a :: diffOps as (b :: bs)
        let d2 := .ins b :: diffOps (a :: as) bs
        if editCost d1 ≤ editCost d2 then d1 else d2
  termination_by xs ys => xs.length + ys.length

/-- One opcode of SequenceMatcher.get_opcodes: a tag (equal, delete, insert
or replace), the half-open index ranges in the old and new sequences, and
the corresponding lines of each side. -/
structure Code where
  tag : String
  i1 : Nat
  i2 : Nat
  j1 : Nat
  j2 : Nat
  old_lines : List String
  new_lines : List String
  deriving DecidableEq, Repr

/-- Builds the opcode list from an edit script, starting at positions i and
j: maximal runs of kept lines become equal opcodes, maximal runs of
deletions and insertions become delete, insert or replace opcodes. -/
def toCodes (ops : List DiffOp) (i j : Nat) : List Code :=
  match ops with
  | [] => []
  | .keep s :: rest =>
      match toCodes rest (i + 1) (j + 1) with
      | c :: cs =>
          if c.tag = "equal" then
            { c with
              i1 := i, j1 := j,
              old_lines := s :: c.old_lines, new_lines := s :: c.new_lines } :: cs
          else ⟨"equal", i, i + 1, j, j + 1, [s], [s]⟩ :: c :: cs
      | [] => [⟨"equal", i, i + 1, j, j + 1, [s], [s]⟩]
  | .del s :: rest =>
      match toCodes rest (i + 1) j with
      | c :: cs =>
          if c.tag = "delete" ∨ c.tag = "insert" ∨ c.tag = "replace" then
            { c with
              tag := if c.tag = "delete" then "delete" else "replace",
              i1 := i, j1 := j, old_lines := s :: c.old_lines } :: cs
          else ⟨"delete", i, i + 1, j, j, [s], []⟩ :: c :: cs
      | [] => [⟨"delete", i, i + 1, j, j, [s], []⟩]
  | .ins s :: rest =>
      match toCodes rest i (j + 1) with
      | c :: cs =>
          if c.tag = "delete" ∨ c.tag = "insert" ∨ c.tag = "replace" then
            { c with
              tag := if c.tag = "insert" then "insert" else "replace",
              i1 := i, j1 := j, new_lines := s :: c.new_lines } :: cs
          else ⟨"insert", i, i, j, j + 1, [], [s]⟩ :: c :: cs
      | [] => [⟨"insert", i, i, j, j + 1, [], [s]⟩]

/-- Trims a leading equal opcode to its last n lines, as
get_grouped_opcodes does before grouping. -/
def trimFirstCode (n : Nat) (codes : List Code) : List Code :=
  match codes with
  | c :: rest =>
      if c.tag = "equal" then
        { c with
          i1 := max c.i1 (c.i2 - n), j1 := max c.j1 (c.j2 - n),
          old_lines := c.old_lines.drop (c.old_lines.length - n),
          new_lines := c.new_lines.drop (c.new_lines.length - n) } :: rest
      else codes
  | [] => []

/-- Trims a trailing equal opcode to its first n lines, as
get_grouped_opcodes does before grouping. -/
def trimLastCode (n : Nat) (codes : List Code) : List Code :=
  match codes with
  | [] => []
  | [c] =>
      if c.tag = "equal" then
        [{ c with
           i2 := min c.i2 (c.i1 + n), j2 := min c.j2 (c.j1 + n),
           old_lines := c.old_lines.take n, new_lines := c.new_lines.take n }]
      else [c]
  | c :: d :: rest => c :: trimLastCode n (d :: rest)

/-- True for a group holding a single equal opcode, which
get_grouped_opcodes drops instead of yielding. -/
def isSingleEqual (g : List Code) : Bool :=
  match g with
  | [c] => c.tag == "equal"
  | _ => false

/-- The grouping loop of get_grouped_opcodes: an equal opcode wider than
2n context lines closes the current group with its first n lines and
starts the next group with its last n lines. -/
def groupLoop (n : Nat) (codes : List Code) (group : List Code) : List (List Code) :=
  match codes with
  | [] => if group.isEmpty || isSingleEqual group then [] else [group]
  | c :: rest =>
      if c.tag = "equal" ∧ c.i2 - c.i1 > 2 * n then
        (group ++ [{ c with
                     i2 := min c.i2 (c.i1 + n), j2 := min c.j2 (c.j1 + n),
                     old_lines := c.old_lines.take n, new_lines := c.new_lines.take n }]) ::
          groupLoop n rest
            [{ c with
               i1 := max c.i1 (c.i2 - n), j1 := max c.j1 (c.j2 - n),
               old_lines := c.old_lines.drop (c.old_lines.length - n),
               new_lines := c.new_lines.drop (c.new_lines.length - n) }]
      else groupLoop n rest (group ++ [c])

/-- Embeds SequenceMatcher.get_grouped_opcodes with n context lines.  An
empty opcode list yields no group (difflib substitutes a fake equal
opcode that the final single-equal check then drops). -/
def groupedCodes (n : Nat) (codes : List Code) : List (List Code) :=
  match codes with
  | [] => []
  | c :: rest => groupLoop n (trimLastCode n (trimFirstCode n (c :: rest))) []

/-- Embeds difflib's _format_range_unified. -/
def formatRangeUnified (start stop : Nat) : String :=
  let beginning := start + 1
  let length := stop - start
  if length = 1 then toString beginning
  else if length = 0 then toString start ++ ",0"
  else toString beginning ++ "," ++ toString length

/-- Renders one opcode of a hunk body, as unified_diff does. -/
def renderCode (c : Code) : List String :=
  if c.tag = "equal" then c.old_lines.map (fun l => " " ++ l)
  else
    (if c.tag = "replace" ∨ c.tag = "delete" then c.old_lines.map (fun l => "-" ++ l) else []) ++
    (if c.tag = "replace" ∨ c.tag = "insert" then c.new_lines.map (fun l => "+" ++ l) else [])

/-- Renders one hunk: the at-at range header, then the bodies of its
opcodes. -/
def renderGroup (g : List Code) : List String :=
  match g with
  | [] => []
  | c :: rest =>
      let lastc := rest.getLastD c
      ("@@ -" ++ formatRangeUnified c.i1 lastc.i2 ++ " +" ++
        formatRangeUnified c.j1 lastc.j2 ++ " @@") :: g.flatMap renderCode

/-- Embeds difflib.unified_diff over line lists with empty file labels and
empty line terminator, as _calculate_diff_lines invokes it: the two
header lines are produced lazily, only when at least one hunk exists. -/
def unifiedDiff (a b : List String) (n : Nat) : List String :=
  let groups := groupedCodes n (toCodes (diffOps a b) 0 0)
  if groups.isEmpty then []
  else "--- " :: "+++ " :: groups.flatMap renderGroup

/-- Embeds Python str.splitlines on text whose only line separators are
newlines, which holds for the normalized text it is applied to. -/
def splitlines (s : String) : List String :=
  if s = "" then []
  else
    let parts := s.splitOn "\n"
    if s.endsWith "\n" then parts.dropLast else parts

/-- Embeds DiffEngine._calculate_diff_lines: equal contents yield no diff
lines; otherwise the unified diff of the normalized, split lines with 3
context lines, with the two header lines skipped, tagged per prefix. -/
def calculate_diff_lines (old_content new_content : String) : List (String × String) :=
  if old_content = new_content then []
  else
    let old_lines := splitlines (StringUtils.normalize_line_endings old_content)
    let new_lines := splitlines (StringUtils.normalize_line_endings new_content)
    ((unifiedDiff old_lines new_lines 3).drop 2).map (fun line =>
      if line.startsWith "@@" then ("context", line)
      else if line.startsWith "-" then ("removed", line.drop 1)
      else if line.startsWith "+" then ("added", line.drop 1)
      else ("unchanged", if line.startsWith " " then line.drop 1 else line))

/-- Embeds the version-label parsing of compare_two_paths: int(s) with -2
for a non-numeric string. -/
def parseIntOr (s : String) (dflt : Int) : Int :=
  (s.toInt?).getD dflt

namespace DiffEngine

/-- Embeds DiffEngine.compare_two_paths: read both paths (a missing file
reads as empty), classify text by the display path extension, and compute
diff lines only for text files. -/
def compare_two_paths (fs : FS) (old_file_path new_file_path : FPath)
    (old_version_str new_version_str : String) (display_file_path : String) : FileDiff :=
  let old_content :=
    if FS.pathExists fs old_file_path then FileUtils.read_file_content fs old_file_path else ""
  let new_content :=
    if FS.pathExists fs new_file_path then FileUtils.read_file_content fs new_file_path else ""
  let text := FileUtils.is_text_file (splitPath display_file_path)
  { file_path := display_file_path,
    old_version := parseIntOr old_version_str (-2),
    new_version := if new_version_str = "current" then -1 else parseIntOr new_version_str (-2),
    old_content := old_content, new_content := new_content,
    is_text_file := text,
    diff_lines := if text then calculate_diff_lines old_content new_content else [] }

/-- Embeds DiffEngine.compare_with_current: the old side is the snapshot of
the given version, the new side is the path under the project root (not
the working directory of the current version). -/
def compare_with_current (root : FPath) (fs : FS) (version : Nat) (file_path : String) : FileDiff :=
  let version_file_path := root ++ ["versions", "v" ++ toString version] ++ splitPath file_path
  let current_file_path := root ++ splitPath file_path
  let old_content :=
    if FS.pathExists fs version_file_path then FileUtils.read_file_content fs version_file_path else ""
  let new_content :=
    if FS.pathExists fs current_file_path then FileUtils.read_file_content fs current_file_path else ""
  let text := FileUtils.is_text_file (splitPath file_path)
  { file_path := file_path, old_version := version, new_version := -1,
    old_content := old_content, new_content := new_content,
    is_text_file := text,
    diff_lines := if text then calculate_diff_lines old_content new_content else [] }

/-- Embeds DiffEngine.compare_with_current_from_empty: the old side is
empty, the new side is the path under the project root. -/
def compare_with_current_from_empty (root : FPath) (fs : FS) (file_path : String) : FileDiff :=
  let current_file_path := root ++ splitPath file_path
  let new_content :=
    if FS.pathExists fs current_file_path then FileUtils.read_file_content fs current_file_path else ""
  let text := FileUtils.is_text_file (splitPath file_path)
  { file_path := file_path, old_version := 0, new_version := -1,
    old_content := "", new_content := new_content,
    is_text_file := text,
    diff_lines := if text then calculate_diff_lines "" new_content else [] }

end DiffEngine

theorem diffOps_self (l : List String) : diffOps l l = l.map .keep := by
  induction l with
  | nil => simp [diffOps]
  | cons a as ih => rw [diffOps, if_pos rfl, ih, List.map_cons]

theorem toCodes_map_keep (l : List String) (i j : Nat) :
    toCodes (l.map .keep) i j =
      if l.isEmpty then []
      else [⟨"equal", i, i + l.length, j, j + l.length, l, l⟩] := by
  induction l generalizing i j with
  | nil => rfl
  | cons s l ih =>
      rw [List.map_cons, toCodes, ih (i + 1) (j + 1)]
      cases l with
      | nil => simp
      | cons t ts =>
          simp only [List.isEmpty_cons, Bool.false_eq_true, if_false]
          simp [Nat.add_assoc, Nat.add_comm 1]

theorem groupLoop_single_equal (n : Nat) (c : Code)
    (htag : c.tag = "equal") (hlen : c.i2 - c.i1 ≤ 2 * n) :
    groupLoop n [c] [] = [] := by
  rw [groupLoop, if_neg (fun h => absurd h.2 (by omega))]
  rw [groupLoop]
  simp [isSingleEqual, htag]

theorem groupedCodes_single_equal (n : Nat) (c : Code) (htag : c.tag = "equal") :
    groupedCodes n [c] = [] := by
  obtain ⟨tag, i1, i2, j1, j2, ol, nl⟩ := c
  simp only at htag
  subst htag
  rw [groupedCodes, trimFirstCode, if_pos rfl, trimLastCode, if_pos rfl]
  exact groupLoop_single_equal n _ rfl (by simp; omega)

theorem unifiedDiff_self (l : List String) : unifiedDiff l l 3 = [] := by
  have h : groupedCodes 3 (toCodes (diffOps l l) 0 0) = [] := by
    rw [diffOps_self, toCodes_map_keep]
    by_cases hl : l.isEmpty
    · rw [if_pos hl]; rfl
    · rw [if_neg hl]; exact groupedCodes_single_equal 3 _ rfl
  simp only [unifiedDiff, h]
  rfl

theorem calculate_diff_lines_norm_eq (c1 c2 : String) (hne : c1 ≠ c2)
    (hnorm : StringUtils.normalize_line_endings c1 = StringUtils.normalize_line_endings c2) :
    calculate_diff_lines c1 c2 = [] := by
  simp only [calculate_diff_lines, if_neg hne, hnorm, unifiedDiff_self]
  rfl

/-- C10: for every pair of text contents unequal as strings but equal after
line-ending normalization, compareTwoPaths on files with those contents
returns a FileDiff with has_changes true but an empty diff_lines list:
has_changes compares the raw contents while diff lines are computed from
normalized lines. -/
theorem C10_crlf_contents_diff (fs : FS) (p1 p2 : FPath) (os ns dp : String)
    (c1 c2 : String) (t1 t2 : Nat)
    (h1 : FS.lookup fs p1 = some (.file c1 t1))
    (h2 : FS.lookup fs p2 = some (.file c2 t2))
    (hne : c1 ≠ c2)
    (hnorm : StringUtils.normalize_line_endings c1 = StringUtils.normalize_line_endings c2) :
    (DiffEngine.compare_two_paths fs p1 p2 os ns dp).has_changes = true ∧
    (DiffEngine.compare_two_paths fs p1 p2 os ns dp).diff_lines = [] := by
  have e1 : FS.pathExists fs p1 = true := FS.pathExists_of_lookup h1
  have e2 : FS.pathExists fs p2 = true := FS.pathExists_of_lookup h2
  constructor
  · simp [DiffEngine.compare_two_paths, FileDiff.has_changes, e1, e2,
          FileUtils.read_file_content, h1, h2, hne]
  · simp [DiffEngine.compare_two_paths, e1, e2, FileUtils.read_file_content, h1, h2,
          calculate_diff_lines_norm_eq c1 c2 hne hnorm]

/-- Witness for C10 at a concrete input: contents differing only by a CRLF
versus LF line ending. -/
theorem C10_crlf_contents_diff_witness :
    (DiffEngine.compare_two_paths
      [(["o.txt"], .file "a\r\nb" 1), (["n.txt"], .file "a\nb" 2)]
      ["o.txt"] ["n.txt"] "1" "current" "f.txt").has_changes = true ∧
    (DiffEngine.compare_two_paths
      [(["o.txt"], .file "a\r\nb" 1), (["n.txt"], .file "a\nb" 2)]
      ["o.txt"] ["n.txt"] "1" "current" "f.txt").diff_lines = [] :=
  C10_crlf_contents_diff _ ["o.txt"] ["n.txt"] "1" "current" "f.txt"
    "a\r\nb" "a\nb" 1 2 rfl rfl (by decide) (by decide)

/- Rendering of a JSON value to the metadata file text; the exact text is
never inspected by the engine, only written. -/
mutual

/-- Renders one JSON value. -/
def renderJ : J → String
  | .str s => "\"" ++ s ++ "\""
  | .num n => toString n
  | .time t => "\"" ++ toString t ++ "\""
  | .list xs => "[" ++ renderJList xs ++ "]"
  | .obj kvs => "\x7b" ++ renderJObj kvs ++ "\x7d"

/-- Renders the comma-separated body of a JSON array. -/
def renderJList : List J → String
  | [] => ""
  | [x] => renderJ x
  | x :: y :: rest => renderJ x ++ ", " ++ renderJList (y :: rest)

/-- Renders the comma-separated body of a JSON object. -/
def renderJObj : List (String × J) → String
  | [] => ""
  | [kv] => "\"" ++ kv.1 ++ "\": " ++ renderJ kv.2
  | kv :: kw :: rest => "\"" ++ kv.1 ++ "\": " ++ renderJ kv.2 ++ ", " ++ renderJObj (kw :: rest)

end

/-- Lexicographic comparison of character lists by code point, the order
Python uses to compare strings. -/
def charsLt : List Char → List Char → Bool
  | [], [] => false
  | [], _ :: _ => true
  | _ :: _, [] => false
  | c :: cs, d :: ds =>
      if c.toNat < d.toNat then true
      else if d.toNat < c.toNat then false
      else charsLt cs ds

/-- Strict string comparison by code point. -/
def strLtB (a b : String) : Bool := charsLt a.toList b.toList

/-- Insertion of a string into a sorted list, for the Python sorted
builtin over path strings. -/
def insertSorted (x : String) : List String → List String
  | [] => [x]
  | y :: ys => if strLtB x y then x :: y :: ys else y :: insertSorted x ys

/-- Embeds the Python sorted builtin on a list of strings. -/
def sortStrings (l : List String) : List String :=
  l.foldr insertSorted []

/-- First-occurrence deduplication, for the Python set conversions whose
result is always sorted right after. -/
def dedupStrings (l : List String) : List String :=
  l.foldl (fun acc x => if acc.contains x then acc else acc ++ [x]) []

/-- Updates the first version carrying the given number, as the code
mutates the object returned by get_version_by_number. -/
def updateFirstVersion (vs : List Version) (n : Nat) (f : Version → Version) : List Version :=
  match vs with
  | [] => []
  | v :: rest => if v.number == n then f v :: rest else v :: updateFirstVersion rest n f

/-- Embeds the Project class state: the project root and the owned
ProjectData (the path manager only contributes the root path). -/
structure Proj where
  root_path : FPath
  data : ProjectData
  deriving DecidableEq, Repr

namespace Project

/-- Embeds self.versions_dir. -/
def versions_dir (proj : Proj) : FPath := proj.root_path ++ ["versions"]

/-- Embeds self.config_path. -/
def config_path (proj : Proj) : FPath := proj.root_path ++ ["project.json"]

/-- Embeds the current_version_dir property. -/
def current_version_dir (proj : Proj) : Option FPath :=
  if proj.data.current_version = 0 then none
  else some (versions_dir proj ++ ["v" ++ toString proj.data.current_version])

/-- Embeds the latest_version_number property. -/
def latest_version_number (proj : Proj) : Nat :=
  (proj.data.get_latest_version).elim 0 (fun v => v.number)

/-- Embeds get_working_file_path: the path inside the current version
directory, with the project root as the fallback when no version exists. -/
def get_working_file_path (proj : Proj) (relative_path : String) : FPath :=
  match current_version_dir proj with
  | none => proj.root_path ++ splitPath relative_path
  | some d => d ++ splitPath relative_path

/-- Embeds save_config: the serialized ProjectData is written to
project.json under the project root.  The metadata file's mtime is never
observed by the engine and is modelled as 0. -/
def save_config (proj : Proj) (fs : FS) : FS :=
  FS.write fs (config_path proj) (.file (renderJ (.obj proj.data.to_dict)) 0)

/-- Embeds update_file_hashes: refresh the hash of each listed path that
exists in the working directory and drop the entry of each one that does
not. -/
def update_file_hashes (proj : Proj) (fs : FS) (file_paths_to_update : List String) : Proj :=
  match current_version_dir proj with
  | none => proj
  | some _ =>
      file_paths_to_update.foldl (fun pr rel =>
        let full := get_working_file_path pr rel
        if FS.pathExists fs full then
          { pr with data := { pr.data with
              file_hashes := dictInsert pr.data.file_hashes rel (FileUtils.get_file_hash fs full) } }
        else if dictContains pr.data.file_hashes rel then
          { pr with data := { pr.data with file_hashes := dictErase pr.data.file_hashes rel } }
        else pr) proj

/-- Embeds rollback_to_version: a version switch only; unknown numbers
return false without touching anything. -/
def rollback_to_version (proj : Proj) (fs : FS) (version_number : Nat) : Bool × Proj × FS :=
  match proj.data.get_version_by_number version_number with
  | none => (false, proj, fs)
  | some _ =>
      let proj2 : Proj := { proj with data := { proj.data with current_version := version_number } }
      (true, proj2, save_config proj2 fs)

/-- Embeds remove_tracked_file: detach the path from tracked_files, from
every version's file list and from file_hashes (Python list.remove drops
only the first occurrence), delete the on-disk working file, persist.
The os.path.exists guard before os.remove is modelled at file level, as
tracked relative paths name files, not directories. -/
def remove_tracked_file (proj : Proj) (fs : FS) (relative_path : String) : Bool × Proj × FS :=
  let proj2 : Proj := { proj with data := { proj.data with
      tracked_files := proj.data.tracked_files.erase relative_path,
      versions := proj.data.versions.map (fun v => { v with files := v.files.erase relative_path }),
      file_hashes := dictErase proj.data.file_hashes relative_path } }
  let file_to_delete := get_working_file_path proj2 relative_path
  let fs2 := match FS.lookup fs file_to_delete with
    | some _ => FS.removeFile fs file_to_delete
    | none => fs
  (true, proj2, save_config proj2 fs2)

/-- Embeds update_version_notes. -/
def update_version_notes (proj : Proj) (fs : FS) (version_number : Nat) (notes : String) :
    Bool × Proj × FS :=
  match proj.data.get_version_by_number version_number with
  | none => (false, proj, fs)
  | some _ =>
      let proj2 : Proj := { proj with data := { proj.data with
          versions := updateFirstVersion proj.data.versions version_number
            (fun v => { v with change_notes := notes }) } }
      (true, proj2, save_config proj2 fs)

/-- Embeds update_settings. -/
def update_settings (proj : Proj) (fs : FS) (settings : ProjectSettings) : Proj × FS :=
  let proj2 : Proj := { proj with data := { proj.data with settings := some settings } }
  (proj2, save_config proj2 fs)

/-- The result of get_all_changes: the added, removed and modified path
lists of the returned dict. -/
structure Changes where
  added : List String
  removed : List String
  modified : List String
  deriving DecidableEq, Repr

/-- Embeds get_all_changes: baseline is the current version's file list,
the working set is a full directory walk; removed, added and modified are
each sorted. -/
def get_all_changes (proj : Proj) (fs : FS) : Changes :=
  let baseline_files :=
    match proj.data.get_version_by_number proj.data.current_version with
    | some v => v.files
    | none => []
  let working_files :=
    match current_version_dir proj with
    | some d => if FS.pathExists fs d then dedupStrings ((FS.walk fs d).map joinPath) else []
    | none => []
  let removed := sortStrings (dedupStrings
    (baseline_files.filter (fun r => !working_files.contains r)))
  let added := sortStrings (working_files.filter (fun r => !baseline_files.contains r))
  let modified := sortStrings (working_files.filter (fun r =>
    baseline_files.contains r &&
      !(FileUtils.get_file_hash fs (get_working_file_path proj r) ==
        dictGet proj.data.file_hashes r "")))
  { added := added, removed := removed, modified := modified }

/-- Embeds apply_sync_changes: merge added into and strip removed from
tracked_files and the current version's file list, drop removed hashes,
rehash added files, persist; disk content is never touched. -/
def apply_sync_changes (proj : Proj) (fs : FS) (changes : Changes) : Proj × FS :=
  let added_files := changes.added
  let removed_files := changes.removed
  let tracked := sortStrings (dedupStrings
    ((proj.data.tracked_files ++ added_files).filter (fun p => !removed_files.contains p)))
  let hashes := removed_files.foldl (fun m r => dictErase m r) proj.data.file_hashes
  let proj2 : Proj := { proj with data := { proj.data with
      tracked_files := tracked, file_hashes := hashes } }
  let proj3 : Proj :=
    if proj2.data.current_version > 0 then
      match proj2.data.get_version_by_number proj2.data.current_version with
      | some v =>
          { proj2 with data := { proj2.data with
              versions := updateFirstVersion proj2.data.versions proj2.data.current_version
                (fun w => { w with files := sortStrings (dedupStrings
                  ((v.files ++ added_files).filter (fun p => !removed_files.contains p))) }) } }
      | none => proj2
    else proj2
  let proj4 := update_file_hashes proj3 fs added_files
  (proj4, save_config proj4 fs)

/-- Copy loop of the UNINITIALIZED bootstrap branch of create_new_version:
each external file is copied by basename into the new version directory;
a failing copy raises with the earlier copies already written. -/
def copyExternals : List FPath → FS → FPath → (Except String (List String)) × FS
  | [], fs, _ => (.ok [], fs)
  | ext :: rest, fs, dir =>
      let name := ext.getLastD ""
      match FS.lookup fs ext with
      | some (.file c t) =>
          let fs2 := FS.write fs (dir ++ [name]) (.file c t)
          match copyExternals rest fs2 dir with
          | (.ok names, fs3) => (.ok (name :: names), fs3)
          | (.error e, fs3) => (.error e, fs3)
      | _ => (.error "copy failed", fs)

/-- Embeds shutil.copytree with the versions and project.json ignore
patterns: every readable file below the source whose relative path avoids
the ignored names is copied; per-file read errors are collected and
raised after the tree has been processed. -/
def copytreeFiltered (fs : FS) (src dst : FPath) : (Except String Unit) × FS :=
  let entries := (FS.walk fs src).filter
    (fun rel => !(rel.contains "versions") && !(rel.contains "project.json"))
  let fs2 := entries.foldl (fun acc rel =>
      match FS.lookup fs (src ++ rel) with
      | some (.file c t) => FS.write acc (dst ++ rel) (.file c t)
      | _ => acc) fs
  let anyBad := entries.any (fun rel =>
      match FS.lookup fs (src ++ rel) with
      | some (.file _ _) => false
      | _ => true)
  (if anyBad then .error "copytree failed" else .ok (), fs2)

/-- The shared tail of create_new_version (source lines 103 to 112): set
current_version, recompute hashes for the new file list, append the
Version record, persist. -/
def finishCreate (proj : Proj) (fs : FS) (num : Nat) (description : String)
    (files : List String) (now : PDateTime) : (Except String Version) × Proj × FS :=
  let proj2 : Proj := { proj with data := { proj.data with current_version := num } }
  let proj3 := update_file_hashes proj2 fs files
  let v : Version := { number := num, description := description, created_at := now, files := files }
  let proj4 : Proj := { proj3 with data := { proj3.data with versions := proj3.data.versions ++ [v] } }
  (.ok v, proj4, save_config proj4 fs)

/-- Embeds create_new_version: validate the description, allocate
latest plus one, bootstrap from external files when UNINITIALIZED,
otherwise copy the whole current snapshot and enumerate it. -/
def create_new_version (proj : Proj) (fs : FS) (description : String)
    (initial_files_from_outside : Option (List FPath)) (now : PDateTime) :
    (Except String Version) × Proj × FS :=
  let chk := ValidationUtils.is_valid_version_description description
  if !chk.1 then (.error chk.2, proj, fs)
  else
    let new_version_num := latest_version_number proj + 1
    let new_version_dir := versions_dir proj ++ ["v" ++ toString new_version_num]
    if proj.data.current_version = 0 ∧ initial_files_from_outside.getD [] ≠ [] then
      match copyExternals (initial_files_from_outside.getD []) fs new_version_dir with
      | (.error e, fs2) => (.error e, proj, fs2)
      | (.ok names, fs2) =>
          let proj2 : Proj := { proj with data := { proj.data with tracked_files := names } }
          finishCreate proj2 fs2 new_version_num description names now
    else
      match current_version_dir proj with
      | some src =>
          if FS.pathExists fs src then
            match copytreeFiltered fs src new_version_dir with
            | (.error e, fs2) => (.error e, proj, fs2)
            | (.ok _, fs2) =>
                let files := (FS.walk fs2 new_version_dir).map joinPath
                finishCreate proj fs2 new_version_num description files now
          else finishCreate proj fs new_version_num description [] now
      | none => finishCreate proj fs new_version_num description [] now

/-- Embeds save_to_current_version: raises on version 0, returns false
when the current version record is missing, otherwise rehashes the
current file list and refreshes the timestamp. -/
def save_to_current_version (proj : Proj) (fs : FS) (now : PDateTime) :
    (Except String Bool) × Proj × FS :=
  if proj.data.current_version = 0 then
    (.error "Cannot save to version 0. Please create a new version.", proj, fs)
  else
    match proj.data.get_version_by_number proj.data.current_version with
    | none => (.ok false, proj, fs)
    | some v =>
        let proj2 := update_file_hashes proj fs v.files
        let proj3 : Proj := { proj2 with data := { proj2.data with
            versions := updateFirstVersion proj2.data.versions proj2.data.current_version
              (fun w => { w with created_at := now }) } }
        (.ok true, proj3, save_config proj3 fs)

/-- One iteration of the add_tracked_files loop: copy the file by basename
into the current version directory (skipping a self-copy), register the
name in tracked_files and the current version file list, and report the
name when it was newly added to that list. -/
def addOneFile (dir fp : FPath) (proj : Proj) (fs : FS) :
    (Except String (Option String)) × Proj × FS :=
  let name := fp.getLastD ""
  let dest := dir ++ [name]
  let copyStep : (Except String Unit) × FS :=
    if fp = dest then (.ok (), fs)
    else match FS.lookup fs fp with
      | some n => (.ok (), FS.write fs dest n)
      | none => (.error "copy failed", fs)
  match copyStep with
  | (.error e, fs2) => (.error e, proj, fs2)
  | (.ok _, fs2) =>
      let tf := if proj.data.tracked_files.contains name then proj.data.tracked_files
        else proj.data.tracked_files ++ [name]
      let proj2 : Proj := { proj with data := { proj.data with tracked_files := tf } }
      let inFiles :=
        match proj2.data.get_version_by_number proj2.data.current_version with
        | some v => v.files.contains name
        | none => true
      let isNew :=
        (proj2.data.get_version_by_number proj2.data.current_version).isSome && !inFiles
      let proj3 : Proj :=
        if isNew then
          { proj2 with data := { proj2.data with
              versions := updateFirstVersion proj2.data.versions proj2.data.current_version
                (fun v => { v with files := v.files ++ [name] }) } }
        else proj2
      ((.ok (if isNew then some name else none)), proj3, fs2)

/-- The per-file loop of add_tracked_files, collecting the names newly
added to the current version file list. -/
def addFilesLoop (dir : FPath) : List FPath → Proj → FS → (Except String (List String)) × Proj × FS
  | [], proj, fs => (.ok [], proj, fs)
  | fp :: rest, proj, fs =>
      match addOneFile dir fp proj fs with
      | (.error e, proj2, fs2) => (.error e, proj2, fs2)
      | (.ok newOpt, proj2, fs2) =>
          match addFilesLoop dir rest proj2 fs2 with
          | (.ok names, proj3, fs3) =>
              (.ok (match newOpt with | some n => n :: names | none => names), proj3, fs3)
          | (.error e, proj3, fs3) => (.error e, proj3, fs3)

/-- Embeds add_tracked_files: fails without an active version, otherwise
copies and registers each path and rehashes the newly added names. -/
def add_tracked_files (proj : Proj) (fs : FS) (file_paths : List FPath) :
    (Except String Unit) × Proj × FS :=
  match current_version_dir proj with
  | none => (.error "Cannot add files: No active version. Please create a version first.", proj, fs)
  | some dir =>
      match addFilesLoop dir file_paths proj fs with
      | (.error e, proj2, fs2) => (.error e, proj2, fs2)
      | (.ok newly, proj2, fs2) =>
          let proj3 := update_file_hashes proj2 fs2 newly
          (.ok (), proj3, save_config proj3 fs2)

/-- Embeds Project.compare_with_current: despite its version_number
argument, the implementation always diffs the working file against the
snapshot of current_version minus one, falling back to the empty old
side when no previous version exists. -/
def compare_with_current (proj : Proj) (fs : FS) (version_number : Nat) (file_path : String) :
    FileDiff :=
  let previous_version_number := proj.data.current_version - 1
  if previous_version_number < 1 then
    DiffEngine.compare_with_current_from_empty proj.root_path fs file_path
  else
    let old_version_file_path :=
      versions_dir proj ++ ["v" ++ toString previous_version_number] ++ splitPath file_path
    let current_version_file_path := get_working_file_path proj file_path
    DiffEngine.compare_two_paths fs old_version_file_path current_version_file_path
      (toString previous_version_number) "current" file_path

/-- Embeds Project.create_new: validate the name, reject an existing
non-empty project directory, install the settings, then either bootstrap
version 1 from the initial files or persist the UNINITIALIZED state. -/
def create_new (working_dir : FPath) (project_name : String) (fs : FS)
    (initial_files : Option (List FPath)) (project_settings : Option ProjectSettings)
    (now : PDateTime) : (Except String Proj) × FS :=
  let chk := ValidationUtils.is_valid_project_name project_name
  if !chk.1 then (.error chk.2, fs)
  else
    let project_root := working_dir ++ [project_name]
    if !(FS.walk fs project_root).isEmpty then
      (.error ("프로젝트 " ++ project_name ++ " 이 이미 존재하며 비어있지 않습니다."), fs)
    else
      let settings := project_settings.getD
        { name := project_name, description := "", created_at := now, author := "", tags := [] }
      let proj : Proj := { root_path := project_root,
                           data := { settings := some settings, current_version := 0,
                                     tracked_files := [], versions := [], file_hashes := [] } }
      match initial_files with
      | some (f :: rest) =>
          match create_new_version proj fs "프로젝트 초기 생성" (some (f :: rest)) now with
          | (.ok _, proj2, fs2) => (.ok proj2, fs2)
          | (.error e, _, fs2) => (.error e, fs2)
      | _ => (.ok proj, save_config proj fs)

end Project

theorem FS.lookup_write_self (fs : FS) (k : FPath) (v : FNode) :
    FS.lookup (FS.write fs k v) k = some v := by
  induction fs with
  | nil => simp [FS.write, FS.lookup]
  | cons e rest ih =>
      obtain ⟨q, m⟩ := e
      rw [FS.write]
      by_cases hq : q = k
      · rw [if_pos hq, FS.lookup, if_pos rfl]
      · rw [if_neg hq, FS.lookup, if_neg hq]
        exact ih

theorem FS.lookup_write_ne (fs : FS) (k : FPath) (v : FNode) (q : FPath) (h : q ≠ k) :
    FS.lookup (FS.write fs k v) q = FS.lookup fs q := by
  induction fs with
  | nil => simp [FS.write, FS.lookup, Ne.symm h]
  | cons e rest ih =>
      obtain ⟨r, m⟩ := e
      rw [FS.write]
      by_cases hr : r = k
      · subst hr
        simp [FS.lookup, Ne.symm h]
      · rw [if_neg hr, FS.lookup, FS.lookup, ih]

theorem FS.lookup_removeFile_self (fs : FS) (k : FPath) :
    FS.lookup (FS.removeFile fs k) k = none := by
  induction fs with
  | nil => rfl
  | cons e rest ih =>
      obtain ⟨r, m⟩ := e
      rw [FS.removeFile, List.filter_cons]
      by_cases hr : r = k
      · simp only [hr, beq_self_eq_true, Bool.not_true, Bool.false_eq_true, if_false]
        exact ih
      · simp only [beq_eq_false_iff_ne.mpr hr, Bool.not_false, if_true]
        rw [FS.lookup, if_neg hr]
        exact ih

theorem FS.lookup_removeFile_ne (fs : FS) (k q : FPath) (h : q ≠ k) :
    FS.lookup (FS.removeFile fs k) q = FS.lookup fs q := by
  induction fs with
  | nil => rfl
  | cons e rest ih =>
      obtain ⟨r, m⟩ := e
      rw [FS.removeFile, List.filter_cons]
      by_cases hr : r = k
      · subst hr
        simp only [beq_self_eq_true, Bool.not_true, Bool.false_eq_true, if_false]
        rw [FS.removeFile] at ih
        rw [ih, FS.lookup, if_neg (fun he : r = q => h (he ▸ rfl))]
      · simp only [beq_eq_false_iff_ne.mpr hr, Bool.not_false, if_true]
        rw [FS.removeFile] at ih
        rw [FS.lookup, FS.lookup, ih]

theorem FS.write_write_self (fs : FS) (k : FPath) (v : FNode) :
    FS.write (FS.write fs k v) k v = FS.write fs k v := by
  induction fs with
  | nil => simp [FS.write]
  | cons e rest ih =>
      obtain ⟨r, m⟩ := e
      rw [FS.write]
      by_cases hr : r = k
      · rw [if_pos hr, FS.write, if_pos rfl]
      · rw [if_neg hr, FS.write, if_neg hr, ih]

theorem versions_dir_ne_config (root p : FPath)
    (h : (root ++ ["versions"]).isPrefixOf p = true) : p ≠ root ++ ["project.json"] := by
  intro he
  rw [List.isPrefixOf_iff_prefix] at h
  rcases h with ⟨t, ht⟩
  rw [he, List.append_assoc] at ht
  have h2 := List.append_cancel_left ht
  simp at h2

/-- C5: rollbackToVersion of an existing version number returns success,
sets only current_version, and modifies no file under the versions
directory; an unknown number returns false and leaves the project state
and the filesystem untouched. -/
theorem C5_rollback_switch (proj : Proj) (fs : FS) (n : Nat) :
    (∀ v, proj.data.get_version_by_number n = some v →
      (Project.rollback_to_version proj fs n).1 = true ∧
      (Project.rollback_to_version proj fs n).2.1.data =
        { proj.data with current_version := n } ∧
      (∀ p : FPath, (Project.versions_dir proj).isPrefixOf p = true →
        FS.lookup (Project.rollback_to_version proj fs n).2.2 p = FS.lookup fs p)) ∧
    (proj.data.get_version_by_number n = none →
      Project.rollback_to_version proj fs n = (false, proj, fs)) := by
  constructor
  · intro v hv
    rw [Project.rollback_to_version, hv]
    refine ⟨rfl, rfl, ?_⟩
    intro p hp
    exact FS.lookup_write_ne fs _ _ p (versions_dir_ne_config proj.root_path p hp)
  · intro hv
    rw [Project.rollback_to_version, hv]

/-- Sample state for the C5 witness: two versions, current version 2. -/
def c5Proj : Proj :=
  { root_path := ["r"],
    data := { settings := none, current_version := 2, tracked_files := ["a.txt"],
              versions := [{ number := 1, description := "one", created_at := 0,
                             files := ["a.txt"] },
                           { number := 2, description := "two", created_at := 1,
                             files := ["a.txt"] }],
              file_hashes := [] } }

/-- Sample filesystem for the C5 witness. -/
def c5FS : FS :=
  [(["r", "versions", "v1", "a.txt"], .file "x" 0),
   (["r", "versions", "v2", "a.txt"], .file "y" 1)]

/-- Witness for C5: rolling the sample project back to version 1 succeeds
and keeps a snapshot file intact, rolling back to 99 fails and changes
nothing. -/
theorem C5_rollback_switch_witness :
    (Project.rollback_to_version c5Proj c5FS 1).1 = true ∧
    (Project.rollback_to_version c5Proj c5FS 1).2.1.data =
      { c5Proj.data with current_version := 1 } ∧
    FS.lookup (Project.rollback_to_version c5Proj c5FS 1).2.2
      ["r", "versions", "v1", "a.txt"] =
      FS.lookup c5FS ["r", "versions", "v1", "a.txt"] ∧
    Project.rollback_to_version c5Proj c5FS 99 = (false, c5Proj, c5FS) :=
  ⟨((C5_rollback_switch c5Proj c5FS 1).1
      { number := 1, description := "one", created_at := 0, files := ["a.txt"] } rfl).1,
   ((C5_rollback_switch c5Proj c5FS 1).1
      { number := 1, description := "one", created_at := 0, files := ["a.txt"] } rfl).2.1,
   ((C5_rollback_switch c5Proj c5FS 1).1
      { number := 1, description := "one", created_at := 0, files := ["a.txt"] } rfl).2.2
      ["r", "versions", "v1", "a.txt"] (by decide),
   (C5_rollback_switch c5Proj c5FS 99).2 rfl⟩

theorem erase_idem_of_count_le_one (l : List String) (p : String) (h : l.count p ≤ 1) :
    (l.erase p).erase p = l.erase p := by
  apply List.erase_of_not_mem
  rw [← List.count_eq_zero, List.count_erase_self]
  omega

theorem filter_idempotent {α : Type} (p : α → Bool) (l : List α) :
    (l.filter p).filter p = l.filter p := by
  induction l with
  | nil => rfl
  | cons x l ih =>
      by_cases h : p x <;> simp [List.filter_cons, h, ih]

theorem dictErase_idem (m : List (String × String)) (k : String) :
    dictErase (dictErase m k) k = dictErase m k :=
  filter_idempotent _ m

theorem removeFS_idem (fs : FS) (file cfg : FPath) (node : FNode) (q : FPath) :
    FS.lookup (FS.write (match FS.lookup (FS.write (match FS.lookup fs file with
        | some _ => FS.removeFile fs file
        | none => fs) cfg node) file with
      | some _ => FS.removeFile (FS.write (match FS.lookup fs file with
          | some _ => FS.removeFile fs file
          | none => fs) cfg node) file
      | none => FS.write (match FS.lookup fs file with
          | some _ => FS.removeFile fs file
          | none => fs) cfg node) cfg node) q =
    FS.lookup (FS.write (match FS.lookup fs file with
        | some _ => FS.removeFile fs file
        | none => fs) cfg node) q := by
  generalize hm2 : (match FS.lookup fs file with
    | some _ => FS.removeFile fs file
    | none => fs) = m2
  have hm2f : FS.lookup m2 file = none := by
    cases hfs : FS.lookup fs file with
    | none => rw [hfs] at hm2; simp only at hm2; rw [← hm2]; exact hfs
    | some n0 => rw [hfs] at hm2; simp only at hm2; rw [← hm2]; exact FS.lookup_removeFile_self fs file
  by_cases hq : q = cfg
  · rw [hq, FS.lookup_write_self, FS.lookup_write_self]
  · rw [FS.lookup_write_ne _ _ _ _ hq, FS.lookup_write_ne _ _ _ _ hq]
    cases hl : FS.lookup (FS.write m2 cfg node) file with
    | none =>
        simp only [hl]
        exact FS.lookup_write_ne _ _ _ _ hq
    | some n2 =>
        simp only [hl]
        by_cases hqf : q = file
        · subst hqf
          have hqc : q ≠ cfg := hq
          rw [FS.lookup_write_ne _ _ _ _ hqc, hm2f] at hl
          exact absurd hl (by simp)
        · rw [FS.lookup_removeFile_ne _ _ _ hqf, FS.lookup_write_ne _ _ _ _ hq]

/-- C9 (amended): removeTrackedFile always returns true, and when the path
occurs at most once in tracked_files and in each version's file list the
second of two consecutive calls returns the same project state and leaves
the filesystem with the same contents. -/
theorem C9_remove_tracked_file_idem (proj : Proj) (fs : FS) (p : String)
    (h1 : proj.data.tracked_files.count p ≤ 1)
    (h2 : ∀ v ∈ proj.data.versions, v.files.count p ≤ 1) :
    (Project.remove_tracked_file proj fs p).1 = true ∧
    (Project.remove_tracked_file (Project.remove_tracked_file proj fs p).2.1
        (Project.remove_tracked_file proj fs p).2.2 p).1 = true ∧
    (Project.remove_tracked_file (Project.remove_tracked_file proj fs p).2.1
        (Project.remove_tracked_file proj fs p).2.2 p).2.1 =
      (Project.remove_tracked_file proj fs p).2.1 ∧
    (∀ q, FS.lookup (Project.remove_tracked_file (Project.remove_tracked_file proj fs p).2.1
        (Project.remove_tracked_file proj fs p).2.2 p).2.2 q =
      FS.lookup (Project.remove_tracked_file proj fs p).2.2 q) := by
  obtain ⟨root, st, cv, tf, vs, fh⟩ := proj
  simp only at h1 h2
  have htf : (tf.erase p).erase p = tf.erase p := erase_idem_of_count_le_one tf p h1
  have hvs : ((vs.map (fun v => { v with files := v.files.erase p })).map
      (fun v => { v with files := v.files.erase p })) =
      vs.map (fun v => { v with files := v.files.erase p }) := by
    rw [List.map_map]
    apply List.map_congr_left
    intro v hv
    obtain ⟨num, desc, ca, fls, cn, al⟩ := v
    simp only [Function.comp_apply]
    congr 1
    exact erase_idem_of_count_le_one fls p (h2 _ hv)
  have hfh : dictErase (dictErase fh p) p = dictErase fh p := dictErase_idem fh p
  simp only [Project.remove_tracked_file, htf, hvs, hfh]
  refine ⟨trivial, trivial, trivial, ?_⟩
  intro q
  simp only [Project.save_config]
  exact removeFS_idem fs _ _ _ q

/-- Sample state for the C9 counterexample: the bootstrap branch of
create_new_version copies external files by basename without
deduplication, so a tracked_files list holding the same name twice is a
reachable project state. -/
def c9Proj : Proj :=
  { root_path := ["r"],
    data := { settings := none, current_version := 0, tracked_files := ["x.txt", "x.txt"],
              versions := [], file_hashes := [] } }

/-- Counterexample for C9 as stated: with x.txt tracked twice, removing it
twice leaves a different project state (an empty tracked list) than
removing it once, so the second call is not a no-op. -/
theorem C9_remove_tracked_file_counterexample :
    (Project.remove_tracked_file (Project.remove_tracked_file c9Proj [] "x.txt").2.1
        (Project.remove_tracked_file c9Proj [] "x.txt").2.2 "x.txt").2.1 ≠
      (Project.remove_tracked_file c9Proj [] "x.txt").2.1 := by decide

/-- Sample state for the C9 witness, with duplicate-free lists. -/
def c9okProj : Proj :=
  { root_path := ["r"],
    data := { settings := none, current_version := 0, tracked_files := ["y.txt"],
              versions := [], file_hashes := [] } }

/-- Witness for C9 at a concrete input: removing a path that is tracked
nowhere succeeds and a second removal changes nothing. -/
theorem C9_remove_tracked_file_idem_witness :
    (Project.remove_tracked_file c9okProj [] "x.txt").1 = true ∧
    (Project.remove_tracked_file (Project.remove_tracked_file c9okProj [] "x.txt").2.1
        (Project.remove_tracked_file c9okProj [] "x.txt").2.2 "x.txt").1 = true ∧
    (Project.remove_tracked_file (Project.remove_tracked_file c9okProj [] "x.txt").2.1
        (Project.remove_tracked_file c9okProj [] "x.txt").2.2 "x.txt").2.1 =
      (Project.remove_tracked_file c9okProj [] "x.txt").2.1 ∧
    FS.lookup (Project.remove_tracked_file (Project.remove_tracked_file c9okProj [] "x.txt").2.1
        (Project.remove_tracked_file c9okProj [] "x.txt").2.2 "x.txt").2.2 ["r", "project.json"] =
      FS.lookup (Project.remove_tracked_file c9okProj [] "x.txt").2.2 ["r", "project.json"] :=
  ⟨(C9_remove_tracked_file_idem c9okProj [] "x.txt" (by decide) (by decide)).1,
   (C9_remove_tracked_file_idem c9okProj [] "x.txt" (by decide) (by decide)).2.1,
   (C9_remove_tracked_file_idem c9okProj [] "x.txt" (by decide) (by decide)).2.2.1,
   (C9_remove_tracked_file_idem c9okProj [] "x.txt" (by decide) (by decide)).2.2.2
     ["r", "project.json"]⟩

/-- Project state of the C6 scenario: version 1 is current, a.txt and
b.txt are tracked with the hashes recorded at the last save. -/
def c6Proj : Proj :=
  { root_path := ["r"],
    data := { settings := none, current_version := 1,
              tracked_files := ["a.txt", "b.txt"],
              versions := [{ number := 1, description := "d", created_at := 0,
                             files := ["a.txt", "b.txt"] }],
              file_hashes := [("a.txt", md5Hex "aa"), ("b.txt", md5Hex "bb")] } }

/-- Filesystem of the C6 scenario: the snapshot directory holds b.txt with
content whose hash differs from the recorded one, and a new c.txt, but no
a.txt. -/
def c6FS : FS :=
  [(["r", "versions", "v1", "b.txt"], .file "bb2" 5),
   (["r", "versions", "v1", "c.txt"], .file "cc" 6)]

/-- C6: in the scenario with tracked a and b, disk holding a modified b and
a new c, getAllChanges reports added c, removed a, modified b; and
applySyncChanges of that result retracks exactly b and c, drops the
recorded hash of a, records a hash for c, and modifies no snapshot file. -/
theorem C6_sync_reconciliation :
    Project.get_all_changes c6Proj c6FS =
      { added := ["c.txt"], removed := ["a.txt"], modified := ["b.txt"] } ∧
    (Project.apply_sync_changes c6Proj c6FS
        (Project.get_all_changes c6Proj c6FS)).1.data.tracked_files = ["b.txt", "c.txt"] ∧
    (Project.apply_sync_changes c6Proj c6FS
        (Project.get_all_changes c6Proj c6FS)).1.data.file_hashes =
      [("b.txt", md5Hex "bb"), ("c.txt", md5Hex "cc")] ∧
    (Project.apply_sync_changes c6Proj c6FS
        (Project.get_all_changes c6Proj c6FS)).1.data.versions =
      [{ number := 1, description := "d", created_at := 0, files := ["b.txt", "c.txt"] }] ∧
    (∀ q : FPath, (["r", "versions"] : FPath).isPrefixOf q = true →
      FS.lookup (Project.apply_sync_changes c6Proj c6FS
          (Project.get_all_changes c6Proj c6FS)).2 q = FS.lookup c6FS q) := by
  refine ⟨by decide, by decide, by decide, by decide, ?_⟩
  intro q hq
  refine FS.lookup_write_ne _ _ _ q ?_
  intro he
  exact versions_dir_ne_config ["r"] q hq (he.trans (by rfl))

theorem valid_name_false (name : String)
    (h : ValidationUtils.pyStrip name = "" ∨ 50 < (ValidationUtils.pyStrip name).length ∨
      ∃ c ∈ ValidationUtils.invalidChars, (ValidationUtils.pyStrip name).toList.contains c) :
    (ValidationUtils.is_valid_project_name name).1 = false := by
  rw [ValidationUtils.is_valid_project_name]
  by_cases h0 : ValidationUtils.pyStrip name = ""
  · rw [if_pos h0]
  · rw [if_neg h0]
    by_cases h1 : (ValidationUtils.pyStrip name).length > 50
    · simp only [if_pos h1]
    · simp only [if_neg h1]
      have hc : ∃ c ∈ ValidationUtils.invalidChars,
          (ValidationUtils.pyStrip name).toList.contains c := by
        rcases h with h | h | h
        · exact absurd h h0
        · exact absurd h h1
        · exact h
      have hs : (ValidationUtils.invalidChars.find?
          (fun c => (ValidationUtils.pyStrip name).toList.contains c)).isSome := by
        rw [List.find?_isSome]
        rcases hc with ⟨c, hc1, hc2⟩
        exact ⟨c, hc1, hc2⟩
      cases hf : ValidationUtils.invalidChars.find?
          (fun c => (ValidationUtils.pyStrip name).toList.contains c) with
      | none => rw [hf] at hs; simp at hs
      | some c => simp only [hf]

theorem valid_description_false (d : String)
    (h : ValidationUtils.pyStrip d = "" ∨ 200 < (ValidationUtils.pyStrip d).length) :
    (ValidationUtils.is_valid_version_description d).1 = false := by
  rw [ValidationUtils.is_valid_version_description]
  by_cases h0 : ValidationUtils.pyStrip d = ""
  · rw [if_pos h0]
  · rw [if_neg h0]
    have h1 : (ValidationUtils.pyStrip d).length > 200 := by
      rcases h with h | h
      · exact absurd h h0
      · exact h
    simp only [if_pos h1]

/-- C7 (amended): when the project name is invalid per the code's
validator (empty or whitespace-only, longer than 50 characters after
stripping surrounding whitespace, or containing a reserved filesystem
character), createProject raises a validation error with the filesystem
untouched; and when the version description is invalid (empty or
whitespace-only, or longer than 200 characters after stripping),
createNewVersion raises a validation error with the project state and the
filesystem untouched. -/
theorem C7_validate_then_act :
    (∀ (working_dir : FPath) (name : String) (fs : FS) (ext : Option (List FPath))
        (ps : Option ProjectSettings) (now : PDateTime),
      (ValidationUtils.pyStrip name = "" ∨ 50 < (ValidationUtils.pyStrip name).length ∨
        ∃ c ∈ ValidationUtils.invalidChars, (ValidationUtils.pyStrip name).toList.contains c) →
      ∃ e, Project.create_new working_dir name fs ext ps now = (.error e, fs)) ∧
    (∀ (proj : Proj) (fs : FS) (description : String) (ext : Option (List FPath))
        (now : PDateTime),
      (ValidationUtils.pyStrip description = "" ∨
        200 < (ValidationUtils.pyStrip description).length) →
      ∃ e, Project.create_new_version proj fs description ext now = (.error e, proj, fs)) := by
  constructor
  · intro wd name fs ext ps now h
    have hv := valid_name_false name h
    refine ⟨(ValidationUtils.is_valid_project_name name).2, ?_⟩
    rw [Project.create_new, hv]
    rfl
  · intro proj fs d ext now h
    have hv := valid_description_false d h
    refine ⟨(ValidationUtils.is_valid_version_description d).2, ?_⟩
    rw [Project.create_new_version, hv]
    rfl

/-- Counterexample for C7 as stated: a 52-character name whose surplus is
trailing whitespace passes validation (the code strips before measuring),
so createProject does not raise for every name longer than 50 characters. -/
theorem C7_counterexample :
    ("a" ++ String.mk (List.replicate 51 ' ')).length = 52 ∧
    (Project.create_new [] ("a" ++ String.mk (List.replicate 51 ' ')) [] none none 0).1 =
      Except.ok { root_path := ["a" ++ String.mk (List.replicate 51 ' ')],
                  data := { settings := some { name := "a" ++ String.mk (List.replicate 51 ' '),
                                               description := "", created_at := 0, author := "",
                                               tags := [] },
                            current_version := 0, tracked_files := [], versions := [],
                            file_hashes := [] } } := by
  constructor
  · decide
  · rfl

/-- Witness for C7 at concrete inputs: the empty name and a whitespace-only
description are rejected with nothing changed. -/
theorem C7_validate_then_act_witness :
    (∃ e, Project.create_new [] "" [] none none 0 = (.error e, [])) ∧
    (∃ e, Project.create_new_version { root_path := ["r"], data := {} } [] "  " none 0 =
      (.error e, { root_path := ["r"], data := {} }, [])) :=
  ⟨C7_validate_then_act.1 [] "" [] none none 0 (Or.inl rfl),
   C7_validate_then_act.2 { root_path := ["r"], data := {} } [] "  " none 0 (Or.inl rfl)⟩

/-- Project state after the section 8 scenario: the project was created
with initial file readme.txt containing hello, so version 1 exists and is
current, and the recorded hash is the hash of hello. -/
def c1Proj : Proj :=
  { root_path := ["p"],
    data := { settings := none, current_version := 1,
              tracked_files := ["readme.txt"],
              versions := [{ number := 1, description := "프로젝트 초기 생성", created_at := 0,
                             files := ["readme.txt"] }],
              file_hashes := [("readme.txt", md5Hex "hello")] } }

/-- Filesystem of the section 8 scenario after the live working file was
edited in place to hello world: the snapshot directory doubles as the
working directory, so the only copy of readme.txt now holds hello world
and the content that produced the recorded hash is gone. -/
def c1FS : FS :=
  [(["p", "versions", "v1", "readme.txt"], .file "hello world" 7),
   (["p", "project.json"], .file "cfg" 0)]

/-- C1 evaluated at the failing input: in the section 8 scenario the code
returns old_content empty and new_content empty, not old hello and new
hello world, because compare_with_current ignores its version argument,
compares against version current minus one (absent here), and reads the
live file from the project root instead of the working directory. -/
theorem C1_compare_with_current_scenario :
    (Project.compare_with_current c1Proj c1FS 1 "readme.txt").old_content = "" ∧
    (Project.compare_with_current c1Proj c1FS 1 "readme.txt").new_content = "" ∧
    (Project.compare_with_current c1Proj c1FS 1 "readme.txt").has_changes = false ∧
    (Project.compare_with_current c1Proj c1FS 1 "readme.txt").diff_lines = [] ∧
    FS.lookup c1FS ["p", "versions", "v1", "readme.txt"] = some (.file "hello world" 7) := by
  decide

/-- One mutating operation of the Project surface, with the wall-clock
arguments the embedded functions take explicitly. -/
inductive Op where
  | createVersion (description : String) (ext : Option (List FPath)) (now : PDateTime)
  | saveCurrent (now : PDateTime)
  | rollback (n : Nat)
  | removeTracked (p : String)
  | applySync (c : Project.Changes)
  | addTracked (ps : List FPath)
  | updateNotes (n : Nat) (notes : String)
  | setSettings (s : ProjectSettings)

/-- Applies one operation to a project-and-filesystem state, keeping the
post-state of the operation whether it succeeds or raises. -/
def stepOp (st : Proj × FS) (op : Op) : Proj × FS :=
  match op with
  | .createVersion d e n => ((Project.create_new_version st.1 st.2 d e n).2.1,
                             (Project.create_new_version st.1 st.2 d e n).2.2)
  | .saveCurrent n => ((Project.save_to_current_version st.1 st.2 n).2.1,
                       (Project.save_to_current_version st.1 st.2 n).2.2)
  | .rollback n => ((Project.rollback_to_version st.1 st.2 n).2.1,
                    (Project.rollback_to_version st.1 st.2 n).2.2)
  | .removeTracked p => ((Project.remove_tracked_file st.1 st.2 p).2.1,
                         (Project.remove_tracked_file st.1 st.2 p).2.2)
  | .applySync c => Project.apply_sync_changes st.1 st.2 c
  | .addTracked ps => ((Project.add_tracked_files st.1 st.2 ps).2.1,
                       (Project.add_tracked_files st.1 st.2 ps).2.2)
  | .updateNotes n s => ((Project.update_version_notes st.1 st.2 n s).2.1,
                         (Project.update_version_notes st.1 st.2 n s).2.2)
  | .setSettings s => Project.update_settings st.1 st.2 s

/-- Whether an operation is a createNewVersion call that succeeds from the
given state. -/
def createSucceeded (st : Proj × FS) (op : Op) : Bool :=
  match op with
  | .createVersion d e n =>
      match (Project.create_new_version st.1 st.2 d e n).1 with
      | .ok _ => true
      | .error _ => false
  | _ => false

/-- Runs a list of operations from a state. -/
def runOps : Proj × FS → List Op → Proj × FS
  | st, [] => st
  | st, op :: ops => runOps (stepOp st op) ops

/-- Number of successful createNewVersion calls along a run. -/
def succCount : Proj × FS → List Op → Nat
  | _, [] => 0
  | st, op :: ops => (if createSucceeded st op then 1 else 0) + succCount (stepOp st op) ops

/-- The stored version numbers of a project, in list order. -/
def versionNumbers (proj : Proj) : List Nat :=
  proj.data.versions.map (fun v => v.number)

theorem updateFirstVersion_map_number (vs : List Version) (n : Nat) (f : Version → Version)
    (hf : ∀ v, (f v).number = v.number) :
    (updateFirstVersion vs n f).map (fun v => v.number) = vs.map (fun v => v.number) := by
  induction vs with
  | nil => rfl
  | cons v rest ih =>
      rw [updateFirstVersion]
      by_cases hv : (v.number == n) = true
      · rw [if_pos hv, List.map_cons, List.map_cons, hf]
      · rw [if_neg hv, List.map_cons, List.map_cons, ih]

theorem update_file_hashes_versions (pr : Proj) (fs : FS) (l : List String) :
    (Project.update_file_hashes pr fs l).data.versions = pr.data.versions := by
  rw [Project.update_file_hashes]
  cases Project.current_version_dir pr with
  | none => rfl
  | some d =>
      simp only
      induction l generalizing pr with
      | nil => rfl
      | cons rel rest ih =>
          rw [List.foldl_cons, ih]
          split
          · rfl
          · split
            · rfl
            · rfl

theorem versionNumbers_data (pr : Proj) (d : ProjectData)
    (h : d.versions.map (fun v => v.number) = pr.data.versions.map (fun v => v.number)) :
    versionNumbers { pr with data := d } = versionNumbers pr := h

theorem addOneFile_numbers (dir fp : FPath) (proj : Proj) (fs : FS) :
    versionNumbers (Project.addOneFile dir fp proj fs).2.1 = versionNumbers proj := by
  rw [Project.addOneFile]
  dsimp only
  split
  · rfl
  · dsimp only
    split <;>
      · split
        · exact updateFirstVersion_map_number _ _ _ (fun v => rfl)
        · rfl

theorem addFilesLoop_numbers (dir : FPath) (fps : List FPath) (proj : Proj) (fs : FS) :
    versionNumbers (Project.addFilesLoop dir fps proj fs).2.1 = versionNumbers proj := by
  induction fps generalizing proj fs with
  | nil => rfl
  | cons fp rest ih =>
      rw [Project.addFilesLoop]
      have h1 := addOneFile_numbers dir fp proj fs
      rcases hone : Project.addOneFile dir fp proj fs with ⟨r1, proj2, fs2⟩
      rw [hone] at h1
      cases r1 with
      | error e => exact h1
      | ok newOpt =>
          dsimp only
          have h2 := ih proj2 fs2
          rcases hrec : Project.addFilesLoop dir rest proj2 fs2 with ⟨r2, proj3, fs3⟩
          rw [hrec] at h2
          cases r2 with
          | ok names => exact h2.trans h1
          | error e => exact h2.trans h1

theorem stepOp_numbers_noncreate (st : Proj × FS) (op : Op)
    (h : ∀ d e n, op ≠ .createVersion d e n) :
    versionNumbers (stepOp st op).1 = versionNumbers st.1 := by
  cases op with
  | createVersion d e n => exact absurd rfl (h d e n)
  | saveCurrent n =>
      rw [stepOp, Project.save_to_current_version]
      split
      · rfl
      · split
        · rfl
        · dsimp only [versionNumbers]
          rw [update_file_hashes_versions]
          apply updateFirstVersion_map_number
          intro v
          rfl
  | rollback n =>
      rw [stepOp, Project.rollback_to_version]
      split
      · rfl
      · rfl
  | removeTracked p =>
      rw [stepOp, Project.remove_tracked_file]
      dsimp only [versionNumbers]
      rw [List.map_map]
      rfl
  | applySync c =>
      rw [stepOp, Project.apply_sync_changes]
      dsimp only [versionNumbers]
      rw [update_file_hashes_versions]
      split
      · split
        · dsimp only [versionNumbers]
          apply updateFirstVersion_map_number
          intro v
          rfl
        · rfl
      · rfl
  | addTracked ps =>
      rw [stepOp, Project.add_tracked_files]
      split
      · rfl
      · rename_i dir hdir
        have h1 := addFilesLoop_numbers dir ps st.1 st.2
        rcases hrec : Project.addFilesLoop dir ps st.1 st.2 with ⟨r, proj2, fs2⟩
        rw [hrec] at h1
        cases r with
        | error e => exact h1
        | ok newly =>
            dsimp only [versionNumbers]
            rw [update_file_hashes_versions]
            exact h1
  | updateNotes n s =>
      rw [stepOp, Project.update_version_notes]
      split
      · rfl
      · dsimp only [versionNumbers]
        apply updateFirstVersion_map_number
        intro v
        rfl
  | setSettings s =>
      rfl

theorem finishCreate_shape (proj : Proj) (fs : FS) (num : Nat) (d : String)
    (files : List String) (now : PDateTime) :
    (Project.finishCreate proj fs num d files now).1 =
      .ok { number := num, description := d, created_at := now, files := files } ∧
    versionNumbers (Project.finishCreate proj fs num d files now).2.1 =
      versionNumbers proj ++ [num] := by
  constructor
  · rfl
  · rw [Project.finishCreate]
    dsimp only [versionNumbers]
    rw [List.map_append, update_file_hashes_versions]
    rfl

theorem create_new_version_cases (proj : Proj) (fs : FS) (d : String)
    (e : Option (List FPath)) (now : PDateTime) :
    (∃ er fs2, Project.create_new_version proj fs d e now = (.error er, proj, fs2)) ∨
    (∃ files fs2,
      Project.create_new_version proj fs d e now =
        (.ok { number := Project.latest_version_number proj + 1, description := d,
               created_at := now, files := files },
         (Project.create_new_version proj fs d e now).2.1, fs2) ∧
      versionNumbers (Project.create_new_version proj fs d e now).2.1 =
        versionNumbers proj ++ [Project.latest_version_number proj + 1]) := by
  by_cases hval : (ValidationUtils.is_valid_version_description d).1 = true
  case neg =>
    have hval2 : (ValidationUtils.is_valid_version_description d).1 = false := by
      cases hb : (ValidationUtils.is_valid_version_description d).1
      · rfl
      · exact absurd hb hval
    left
    refine ⟨(ValidationUtils.is_valid_version_description d).2, fs, ?_⟩
    rw [Project.create_new_version, hval2]
    rfl
  case pos =>
    have hbody : Project.create_new_version proj fs d e now =
        (if proj.data.current_version = 0 ∧ e.getD [] ≠ [] then
          match Project.copyExternals (e.getD []) fs
              (Project.versions_dir proj ++
                ["v" ++ toString (Project.latest_version_number proj + 1)]) with
          | (.error er2, fs2) => (.error er2, proj, fs2)
          | (.ok names, fs2) =>
              Project.finishCreate { proj with data := { proj.data with tracked_files := names } }
                fs2 (Project.latest_version_number proj + 1) d names now
        else
          match Project.current_version_dir proj with
          | some src =>
              if FS.pathExists fs src then
                match Project.copytreeFiltered fs src
                    (Project.versions_dir proj ++
                      ["v" ++ toString (Project.latest_version_number proj + 1)]) with
                | (.error er2, fs2) => (.error er2, proj, fs2)
                | (.ok _, fs2) =>
                    Project.finishCreate proj fs2 (Project.latest_version_number proj + 1) d
                      ((FS.walk fs2 (Project.versions_dir proj ++
                        ["v" ++ toString (Project.latest_version_number proj + 1)])).map joinPath)
                      now
              else Project.finishCreate proj fs (Project.latest_version_number proj + 1) d [] now
          | none => Project.finishCreate proj fs (Project.latest_version_number proj + 1) d [] now) := by
      rw [Project.create_new_version, hval]
      rfl
    by_cases hboot : proj.data.current_version = 0 ∧ e.getD [] ≠ []
    · rw [if_pos hboot] at hbody
      rcases hcp : Project.copyExternals (e.getD []) fs
          (Project.versions_dir proj ++
            ["v" ++ toString (Project.latest_version_number proj + 1)]) with ⟨rc, fs2⟩
      rw [hcp] at hbody
      cases rc with
      | error er2 =>
          left
          exact ⟨er2, fs2, hbody⟩
      | ok names =>
          right
          have hf := finishCreate_shape
            { proj with data := { proj.data with tracked_files := names } } fs2
            (Project.latest_version_number proj + 1) d names now
          refine ⟨names, (Project.finishCreate { proj with data := { proj.data with
              tracked_files := names } } fs2
              (Project.latest_version_number proj + 1) d names now).2.2, ?_, ?_⟩
          · rw [hbody]
            exact Prod.ext hf.1 rfl
          · rw [hbody]
            exact hf.2
    · rw [if_neg hboot] at hbody
      cases hdir : Project.current_version_dir proj with
      | none =>
          rw [hdir] at hbody
          right
          have hf := finishCreate_shape proj fs (Project.latest_version_number proj + 1) d [] now
          refine ⟨[], (Project.finishCreate proj fs
              (Project.latest_version_number proj + 1) d [] now).2.2, ?_, ?_⟩
          · rw [hbody]
            exact Prod.ext hf.1 rfl
          · rw [hbody]
            exact hf.2
      | some src =>
          rw [hdir] at hbody
          dsimp only at hbody
          by_cases hex : FS.pathExists fs src = true
          · rw [if_pos hex] at hbody
            rcases hct : Project.copytreeFiltered fs src
                (Project.versions_dir proj ++
                  ["v" ++ toString (Project.latest_version_number proj + 1)]) with ⟨rc, fs2⟩
            rw [hct] at hbody
            cases rc with
            | error er2 =>
                left
                exact ⟨er2, fs2, hbody⟩
            | ok u =>
                right
                have hf := finishCreate_shape proj fs2 (Project.latest_version_number proj + 1) d
                  ((FS.walk fs2 (Project.versions_dir proj ++
                    ["v" ++ toString (Project.latest_version_number proj + 1)])).map joinPath) now
                refine ⟨(FS.walk fs2 (Project.versions_dir proj ++
                      ["v" ++ toString (Project.latest_version_number proj + 1)])).map joinPath,
                  (Project.finishCreate proj fs2
                    (Project.latest_version_number proj + 1) d
                    ((FS.walk fs2 (Project.versions_dir proj ++
                      ["v" ++ toString (Project.latest_version_number proj + 1)])).map joinPath)
                    now).2.2, ?_, ?_⟩
                · rw [hbody]
                  exact Prod.ext hf.1 rfl
                · rw [hbody]
                  exact hf.2
          · rw [if_neg hex] at hbody
            right
            have hf := finishCreate_shape proj fs (Project.latest_version_number proj + 1) d [] now
            refine ⟨[], (Project.finishCreate proj fs
                (Project.latest_version_number proj + 1) d [] now).2.2, ?_, ?_⟩
            · rw [hbody]
              exact Prod.ext hf.1 rfl
            · rw [hbody]
              exact hf.2

theorem foldl_max_range (k : Nat) : ∀ (a : Nat),
    List.foldl max a (List.range' (a + 1) k) = a + k := by
  induction k with
  | zero => intro a; rfl
  | succ n ih =>
      intro a
      rw [List.range'_succ, List.foldl_cons]
      have h1 : max a (a + 1) = a + 1 := by omega
      rw [h1, ih (a + 1)]
      omega

theorem version_foldl_number (l : List Version) : ∀ (b : Version),
    (l.foldl (fun b w => if b.number < w.number then w else b) b).number =
      List.foldl max b.number (l.map (fun v => v.number)) := by
  induction l with
  | nil => intro b; rfl
  | cons w l ih =>
      intro b
      rw [List.map_cons, List.foldl_cons, List.foldl_cons, ih]
      congr 1
      by_cases h : b.number < w.number
      · rw [if_pos h]
        omega
      · rw [if_neg h]
        omega

theorem latest_of_range (proj : Proj) (k : Nat)
    (h : versionNumbers proj = List.range' 1 k) :
    Project.latest_version_number proj = k := by
  rw [Project.latest_version_number, ProjectData.get_latest_version]
  rcases hvs : proj.data.versions with _ | ⟨v, rest⟩
  · rw [versionNumbers, hvs] at h
    simp only [List.map_nil] at h
    have h0 : (0 : Nat) = k := by simpa using congrArg List.length h
    rw [← h0]
    rfl
  · rw [versionNumbers, hvs, List.map_cons] at h
    cases k with
    | zero => simp at h
    | succ m =>
        rw [List.range'_succ] at h
        have hv : v.number = 1 := (List.cons.injEq _ _ _ _).mp h |>.1
        have hrest : rest.map (fun v => v.number) = List.range' 2 m :=
          (List.cons.injEq _ _ _ _).mp h |>.2
        show (rest.foldl (fun b w => if b.number < w.number then w else b) v).number = m + 1
        rw [version_foldl_number, hrest, hv]
        have := foldl_max_range m 1
        rw [show (1 : Nat) + 1 = 2 from rfl] at this
        rw [this]
        omega

theorem step_numbers (st : Proj × FS) (op : Op) (k : Nat)
    (h : versionNumbers st.1 = List.range' 1 k) :
    versionNumbers (stepOp st op).1 =
      List.range' 1 (k + (if createSucceeded st op then 1 else 0)) := by
  cases op with
  | createVersion d e n =>
      rcases create_new_version_cases st.1 st.2 d e n with ⟨er, fs2, heq⟩ | ⟨files, fs2, heq, hnums⟩
      · have h1 : (Project.create_new_version st.1 st.2 d e n).1 = .error er := by rw [heq]
        have h2 : createSucceeded st (.createVersion d e n) = false := by
          show (match (Project.create_new_version st.1 st.2 d e n).1 with
            | .ok _ => true | .error _ => false) = false
          rw [h1]
        have h3 : versionNumbers (stepOp st (.createVersion d e n)).1 = versionNumbers st.1 := by
          show versionNumbers (Project.create_new_version st.1 st.2 d e n).2.1 = _
          rw [heq]
        rw [h2, h3, h]
        norm_num
      · have h1 : (Project.create_new_version st.1 st.2 d e n).1 =
            .ok { number := Project.latest_version_number st.1 + 1, description := d,
                  created_at := n, files := files } := by rw [heq]
        have h2 : createSucceeded st (.createVersion d e n) = true := by
          show (match (Project.create_new_version st.1 st.2 d e n).1 with
            | .ok _ => true | .error _ => false) = true
          rw [h1]
        have h3 : versionNumbers (stepOp st (.createVersion d e n)).1 =
            versionNumbers st.1 ++ [Project.latest_version_number st.1 + 1] := hnums
        rw [h2, h3, h, latest_of_range st.1 k h]
        have hr : List.range' 1 k ++ [k + 1] = List.range' 1 (k + 1) := by
          rw [List.range'_concat]
          congr 1
          simp [Nat.one_mul]
          omega
        rw [hr]
        norm_num
  | saveCurrent n =>
      exact (stepOp_numbers_noncreate st (Op.saveCurrent n) (fun a b c hh => nomatch hh)).trans h
  | rollback n =>
      exact (stepOp_numbers_noncreate st (Op.rollback n) (fun a b c hh => nomatch hh)).trans h
  | removeTracked p =>
      exact (stepOp_numbers_noncreate st (Op.removeTracked p) (fun a b c hh => nomatch hh)).trans h
  | applySync c =>
      exact (stepOp_numbers_noncreate st (Op.applySync c) (fun a b c hh => nomatch hh)).trans h
  | addTracked ps =>
      exact (stepOp_numbers_noncreate st (Op.addTracked ps) (fun a b c hh => nomatch hh)).trans h
  | updateNotes n s =>
      exact (stepOp_numbers_noncreate st (Op.updateNotes n s) (fun a b c hh => nomatch hh)).trans h
  | setSettings s =>
      exact (stepOp_numbers_noncreate st (Op.setSettings s) (fun a b c hh => nomatch hh)).trans h

theorem runOps_numbers (ops : List Op) : ∀ (st : Proj × FS) (k : Nat),
    versionNumbers st.1 = List.range' 1 k →
    versionNumbers (runOps st ops).1 = List.range' 1 (k + succCount st ops) := by
  induction ops with
  | nil =>
      intro st k h
      rw [runOps, succCount]
      simpa using h
  | cons op rest ih =>
      intro st k h
      rw [runOps, succCount]
      have h1 := step_numbers st op k h
      have h2 := ih (stepOp st op) (k + (if createSucceeded st op then 1 else 0)) h1
      rw [h2]
      have h3 : k + (if createSucceeded st op then 1 else 0) + succCount (stepOp st op) rest =
          k + ((if createSucceeded st op then 1 else 0) + succCount (stepOp st op) rest) := by
        omega
      rw [h3]

/-- C3: starting from an UNINITIALIZED project (no stored versions), any
sequence of operations leaves the stored version numbers exactly 1..N in
list order, where N is the number of successful createNewVersion calls;
each successful createNewVersion assigns number latest+1 and appends it,
and no other operation reassigns or deletes a version number. -/
theorem C3_version_numbering :
    (∀ (proj : Proj) (fs : FS) (d : String) (e : Option (List FPath)) (now : PDateTime)
        (v : Version) (proj2 : Proj) (fs2 : FS),
      Project.create_new_version proj fs d e now = (.ok v, proj2, fs2) →
      v.number = Project.latest_version_number proj + 1 ∧
      versionNumbers proj2 = versionNumbers proj ++ [v.number]) ∧
    (∀ (st : Proj × FS) (op : Op),
      (∀ d e n, op ≠ Op.createVersion d e n) →
      versionNumbers (stepOp st op).1 = versionNumbers st.1) ∧
    (∀ (proj : Proj) (fs : FS) (ops : List Op),
      proj.data.versions = [] →
      versionNumbers (runOps (proj, fs) ops).1 =
        List.range' 1 (succCount (proj, fs) ops)) := by
  refine ⟨?_, ?_, ?_⟩
  · intro proj fs d e now v proj2 fs2 h
    rcases create_new_version_cases proj fs d e now with ⟨er, fs3, heq⟩ | ⟨files, fs3, heq, hnums⟩
    · rw [h] at heq
      exact absurd (congrArg Prod.fst heq) (by simp)
    · have hcomb := h.symm.trans heq
      have hfst := congrArg Prod.fst hcomb
      have hv : v = { number := Project.latest_version_number proj + 1,
                      description := d,
                      created_at := now,
                      files := files,
                      change_notes := "",
                      auto_log := [] } := by
        simpa using hfst
      have hp : proj2 = (Project.create_new_version proj fs d e now).2.1 :=
        congrArg (fun x => x.2.1) hcomb
      constructor
      · rw [hv]
      · rw [hp, hnums, hv]
  · intro st op hne
    exact stepOp_numbers_noncreate st op hne
  · intro proj fs ops h0
    have h1 : versionNumbers (proj, fs).1 = List.range' 1 0 := by
      show versionNumbers proj = _
      rw [versionNumbers, h0]
      rfl
    have h2 := runOps_numbers ops (proj, fs) 0 h1
    simpa using h2

/-- Concrete run of C3: a fresh project, one non-create operation, and a
two-create run producing version numbers [1, 2]. -/
theorem C3_version_numbering_witness :
    ({ number := 1, description := "v1", created_at := 5, files := [],
       change_notes := "", auto_log := [] } : Version).number =
      Project.latest_version_number ⟨["r"], {}⟩ + 1 ∧
    versionNumbers (stepOp (⟨["r"], {}⟩, ([] : FS)) (Op.rollback 3)).1 =
      versionNumbers (⟨["r"], {}⟩ : Proj) ∧
    versionNumbers (runOps (⟨["r"], {}⟩, ([] : FS))
        [Op.createVersion "v1" none 5, Op.createVersion "v2" none 6]).1 =
      List.range' 1 (succCount (⟨["r"], {}⟩, ([] : FS))
        [Op.createVersion "v1" none 5, Op.createVersion "v2" none 6]) :=
  ⟨(C3_version_numbering.1 ⟨["r"], {}⟩ [] "v1" none 5 _ _ _ rfl).1,
   C3_version_numbering.2.1 (⟨["r"], {}⟩, []) (Op.rollback 3) (fun _ _ _ h => nomatch h),
   C3_version_numbering.2.2 ⟨["r"], {}⟩ [] [Op.createVersion "v1" none 5, Op.createVersion "v2" none 6] rfl⟩
